import Mathlib

/-!
Verification development for the timetable generation engine in
`src/app/timetable_generator.py` of the University-Timetable repository.

The Python code is shallowly embedded: clock times (`datetime.time`) are
represented as minutes from midnight (`Nat`), the database tables behind the
SQLAlchemy session are represented as explicit lists carried in a
configuration record, and the mutable generator state (ledger of timetable
rows, counters, conflict list) is threaded explicitly.  The two sources of
nondeterminism of a run, `random.shuffle` and `time.time()`, are modelled by
an explicit oracle supplying the shuffled orders and the elapsed-clock
readings.
-/

namespace UniTT

/-- `check_time_overlap` from the source: two half-open periods overlap iff
`max(start1, start2) < min(end1, end2)`, on minutes from midnight. -/
def check_time_overlap (s1 e1 s2 e2 : Nat) : Bool :=
  decide (max s1 s2 < min e1 e2)

/-- Length of the Python `range(start, stop, step)` when `start, step : Nat`
and the stop bound is an integer (it is `day_end - duration + 1` in the
source, which can be negative). -/
def pyRangeLen (start : Nat) (stop : Int) (step : Nat) : Nat :=
  ((stop - start).toNat + step - 1) / step

/-- The start minutes enumerated by the candidate-slot loop of
`get_available_time_slots`: `range(day_start, day_end - duration + 1, step)`. -/
def slotStarts (day_start day_end duration step : Nat) : List Nat :=
  (List.range (pyRangeLen day_start ((day_end : Int) - duration + 1) step)).map
    (fun i => day_start + i * step)

/-- `get_available_time_slots` from the source: all candidate windows of the
given duration at `step` granularity inside `[day_start, day_end]` that
overlap none of the existing bookings. -/
def get_available_time_slots (duration_minutes : Nat)
    (existing_slots : List (Nat × Nat)) (day_start day_end : Nat)
    (step_minutes : Nat) : List (Nat × Nat) :=
  (slotStarts day_start day_end duration_minutes step_minutes).filterMap fun s =>
    if existing_slots.all
        (fun p => !check_time_overlap s (s + duration_minutes) p.1 p.2) then
      some (s, s + duration_minutes)
    else none

/-- `DEFAULT_TEACHING_HOURS` from the source as (day, start, end) in minutes;
Sunday is the designated non-teaching day (00:00-00:00). -/
def DEFAULT_TEACHING_HOURS : List (String × Nat × Nat) :=
  [("Monday", 480, 1020), ("Tuesday", 480, 1020), ("Wednesday", 480, 1020),
   ("Thursday", 480, 1020), ("Friday", 480, 1020), ("Saturday", 480, 780),
   ("Sunday", 0, 0)]

/-- The day names in the dictionary order of `DEFAULT_TEACHING_HOURS.keys()`. -/
def daysList : List String := DEFAULT_TEACHING_HOURS.map Prod.fst

def DEFAULT_LECTURE_DURATION : Nat := 60
def DEFAULT_LAB_DURATION : Nat := 120

/-- Row of the `course` table (fields used by the generator). -/
structure Course where
  id : Nat
  type : String
  expected_students : Option Nat
  semester_id : Nat
deriving DecidableEq, Repr

/-- Row of the `instructor` table (fields used by the generator). -/
structure Instructor where
  id : Nat
  max_hours_per_week : Nat
deriving DecidableEq, Repr

/-- Row of the `room` table (fields used by the generator). -/
structure Room where
  id : Nat
  type : String
  capacity : Nat
deriving DecidableEq, Repr

/-- Row of the `timetable` table: one committed booking. -/
structure Booking where
  course_id : Nat
  instructor_id : Nat
  room_id : Nat
  day : String
  start_time : Nat
  end_time : Nat
  semester_id : Nat
deriving DecidableEq, Repr

/-- Row of the `instructor_availability` table. -/
structure InstructorAvailability where
  instructor_id : Nat
  day : String
  start_time : Nat
  end_time : Nat
  is_available : Bool
deriving DecidableEq, Repr

/-- Row of the `instructor_preference` table. -/
structure InstructorPreference where
  instructor_id : Nat
  course_id : Nat
  preference_level : Nat
deriving DecidableEq, Repr

/-- Row of the `timetable_constraint` table (fields read by the generator). -/
structure TimetableConstraint where
  constraint_type : String
  is_hard_constraint : Bool
deriving DecidableEq, Repr

/-- The `TimeSlot` schema: a (day, start, end) window. -/
structure TimeSlot where
  day : String
  start_time : Nat
  end_time : Nat
deriving DecidableEq, Repr

/-- The `ConflictInfo` schema (fields relevant to the claims: the violated
kind, the subject course id and the attempted slot). -/
structure ConflictInfo where
  conflict_type : String
  entity_id : Nat
  time_slot : TimeSlot
deriving DecidableEq, Repr

/-- `OptimizationStrategyEnum` from the schemas. -/
inductive OptimizationStrategyEnum
  | balanced | rooms | instructors | students | minimal_changes
deriving DecidableEq, Repr

/-- `_get_room_bookings`: (start, end) pairs of the ledger rows with the given
room, day and semester. -/
def get_room_bookings (tt : List Booking) (sem room_id : Nat) (day : String) :
    List (Nat × Nat) :=
  (tt.filter fun b =>
      b.room_id == room_id && b.day == day && b.semester_id == sem).map
    fun b => (b.start_time, b.end_time)

/-- `_get_instructor_bookings`: (start, end) pairs of the ledger rows with the
given instructor, day and semester. -/
def get_instructor_bookings (tt : List Booking) (sem instructor_id : Nat)
    (day : String) : List (Nat × Nat) :=
  (tt.filter fun b =>
      b.instructor_id == instructor_id && b.day == day && b.semester_id == sem).map
    fun b => (b.start_time, b.end_time)

/-- Total booked minutes of the instructor in the semester (the running sum of
`_calculate_instructor_hours`). -/
def instructorMinutes (tt : List Booking) (sem instructor_id : Nat) : Int :=
  ((tt.filter fun b =>
      b.instructor_id == instructor_id && b.semester_id == sem).map
    fun b => (b.end_time : Int) - (b.start_time : Int)).sum

/-- `_calculate_instructor_hours`: total booked minutes of the instructor in
the semester, floor-divided by 60 (Python `//`, i.e. Euclidean division by the
positive constant 60). -/
def calculate_instructor_hours (tt : List Booking) (sem instructor_id : Nat) : Int :=
  instructorMinutes tt sem instructor_id / 60

/-- `_get_instructor_availability` for one day: the `is_available` rows of the
instructor for that day; when there are none, the full default teaching window
of the day (unless that window is 00:00-00:00). -/
def get_instructor_availability (avs : List InstructorAvailability)
    (instructor_id : Nat) (day : String) : List (Nat × Nat) :=
  let slots := (avs.filter fun a =>
      a.instructor_id == instructor_id && a.is_available && a.day == day).map
    fun a => (a.start_time, a.end_time)
  if slots.isEmpty then
    match DEFAULT_TEACHING_HOURS.find? (fun p => p.1 == day) with
    | some p => if p.2.1 != 0 || p.2.2 != 0 then [(p.2.1, p.2.2)] else []
    | none => []
  else slots

/-- Session duration by course type (Lab: 120 minutes, otherwise 60). -/
def course_duration (course : Course) : Nat :=
  if course.type == "Lab" then DEFAULT_LAB_DURATION else DEFAULT_LECTURE_DURATION

/-- The `slot_works_for_room` check inside `_find_time_slot`: the candidate
window overlaps no existing room booking. -/
def slot_works_for_room (rb : List (Nat × Nat)) (s e : Nat) : Bool :=
  rb.all fun p => !check_time_overlap s e p.1 p.2

/-- The per-day body of `_find_time_slot`: `none` when the day is not a key of
`DEFAULT_TEACHING_HOURS` or its default start is 00:00 (the `continue` of the
source); otherwise the first candidate slot inside the availability windows of
the instructor (clipped to the default day window) that is free of the
instructor bookings and of the room bookings of that day. -/
def find_slot_on_day (avs : List InstructorAvailability) (tt : List Booking)
    (sem duration instructor_id room_id : Nat) (day : String) :
    Option (Nat × Nat) :=
  match DEFAULT_TEACHING_HOURS.find? (fun p => p.1 == day) with
  | none => none
  | some p =>
    if p.2.1 == 0 then none
    else
      let ib := get_instructor_bookings tt sem instructor_id day
      let rb := get_room_bookings tt sem room_id day
      let islots := (get_instructor_availability avs instructor_id day).flatMap
        fun w => get_available_time_slots duration ib (max w.1 p.2.1) (min w.2 p.2.2) 30
      islots.find? fun q => slot_works_for_room rb q.1 q.2

/-- `_find_time_slot`: scan the days in the (shuffled) order `dayOrder` and
return the first feasible window as a `TimeSlot`. -/
def find_time_slot (avs : List InstructorAvailability) (tt : List Booking)
    (sem : Nat) (course : Course) (instructor : Instructor) (room : Room) :
    List String → Option TimeSlot
  | [] => none
  | day :: rest =>
    match find_slot_on_day avs tt sem (course_duration course) instructor.id
        room.id day with
    | some q => some ⟨day, q.1, q.2⟩
    | none => find_time_slot avs tt sem course instructor room rest

/-- The room-type clause of `_check_constraints`. -/
def roomTypeViol (course : Course) (room : Room) : Bool :=
  (course.type == "Lab" && room.type != "Lab")
    || (course.type == "Theory" && room.type == "Lab")

/-- The room-capacity clause of `_check_constraints` (Python truthiness: an
unset or zero expected enrollment disables the check). -/
def roomCapViol (course : Course) (room : Room) : Bool :=
  match course.expected_students with
  | some n => n != 0 && room.capacity < n
  | none => false

/-- Duration of the course in whole hours, as computed by the source
(`duration // 60`). -/
def duration_hours (course : Course) : Int :=
  (course_duration course : Int) / 60

/-- The instructor-max-hours clause of `_check_constraints`. -/
def hoursViol (tt : List Booking) (sem : Nat) (course : Course)
    (instructor : Instructor) : Bool :=
  decide (calculate_instructor_hours tt sem instructor.id + duration_hours course
    > (instructor.max_hours_per_week : Int))

/-- The room-conflict clause of `_check_constraints`. -/
def roomConflictViol (tt : List Booking) (sem : Nat) (room : Room)
    (slot : TimeSlot) : Bool :=
  (get_room_bookings tt sem room.id slot.day).any fun p =>
    check_time_overlap slot.start_time slot.end_time p.1 p.2

/-- The instructor-conflict clause of `_check_constraints`. -/
def instructorConflictViol (tt : List Booking) (sem : Nat)
    (instructor : Instructor) (slot : TimeSlot) : Bool :=
  (get_instructor_bookings tt sem instructor.id slot.day).any fun p =>
    check_time_overlap slot.start_time slot.end_time p.1 p.2

/-- `_check_constraints`: the list of violated constraint kinds, in the order
the source appends them. -/
def check_constraints (tt : List Booking) (sem : Nat) (course : Course)
    (instructor : Instructor) (room : Room) (slot : TimeSlot) : List String :=
  (if roomTypeViol course room then ["RoomTypeMatch"] else [])
    ++ (if roomCapViol course room then ["RoomCapacity"] else [])
    ++ (if hoursViol tt sem course instructor then ["InstructorMaxHours"] else [])
    ++ (if roomConflictViol tt sem room slot then ["NoRoomConflict"] else [])
    ++ (if instructorConflictViol tt sem instructor slot then ["NoInstructorConflict"] else [])

/-- Lookup in the constraint registry built by `_load_constraints` (a Python
dict keyed by `constraint_type`, so the last row with a given kind wins):
`true` exactly when the kind is registered and its definition is hard.  This
is the commit-blocking test of `_create_timetable_entry`
(`constraint in self.constraints and self.constraints[constraint]["is_hard"]`). -/
def is_hard_block (cs : List TimetableConstraint) (kind : String) : Bool :=
  match cs.reverse.find? (fun c => c.constraint_type == kind) with
  | some c => c.is_hard_constraint
  | none => false

/-- Stable insertion used to model Python sorting (`list.sort` / `sorted` are
stable): `x` is placed before the first element it must strictly precede. -/
def insertStable (lt : α → α → Bool) (x : α) : List α → List α
  | [] => [x]
  | y :: ys => if lt x y then x :: y :: ys else y :: insertStable lt x ys

/-- Stable sort: fold the list left to right through `insertStable`.  Elements
that compare equal keep their original relative order, as in Python. -/
def pySorted (lt : α → α → Bool) (l : List α) : List α :=
  l.foldl (fun acc x => insertStable lt x acc) []

/-- `_get_suitable_rooms`: filter by room-type compatibility and (when the
expected enrollment is truthy) by capacity, then order by ascending surplus
`abs(capacity - expected)` (or ascending capacity when no enrollment). -/
def get_suitable_rooms (rooms : List Room) (course : Course) : List Room :=
  let base := rooms.filter fun r =>
    if course.type == "Theory" then r.type == "Lecture Hall"
    else if course.type == "Lab" then r.type == "Lab"
    else true
  match course.expected_students with
  | some n =>
    if n != 0 then
      pySorted (fun a b =>
          decide (((a.capacity : Int) - n).natAbs < ((b.capacity : Int) - n).natAbs))
        (base.filter fun r => n ≤ r.capacity)
    else pySorted (fun a b => decide (a.capacity < b.capacity)) base
  | none => pySorted (fun a b => decide (a.capacity < b.capacity)) base

/-- `_get_instructor_preferences` lookup with the neutral default of 3; the
preference dict is keyed by course id, so the last matching row wins. -/
def get_preference (prefs : List InstructorPreference) (instructor_id course_id : Nat) :
    Nat :=
  match ((prefs.filter fun p => p.instructor_id == instructor_id).reverse).find?
      (fun p => p.course_id == course_id) with
  | some p => p.preference_level
  | none => 3

/-- Full configuration of one `TimetableGenerator` run: the constructor
arguments plus the database tables the run reads. -/
structure GenConfig where
  semester_id : Nat
  strategy : OptimizationStrategyEnum
  respect_existing : Bool
  clear_existing : Bool
  max_iterations : Nat
  time_limit_seconds : Nat
  courses : List Course
  instructorsPool : List Instructor
  rooms : List Room
  availabilities : List InstructorAvailability
  preferences : List InstructorPreference
  constraintsDb : List TimetableConstraint

/-- `_get_suitable_instructors`: every instructor of the pool paired with its
preference score for the course, sorted by descending score (stable). -/
def get_suitable_instructors (cfg : GenConfig) (course : Course) :
    List (Instructor × Nat) :=
  pySorted (fun a b => decide (b.2 < a.2))
    (cfg.instructorsPool.map fun i => (i, get_preference cfg.preferences i.id course.id))

/-- Mutable state of a run: the timetable ledger, the entries-created counter,
the accumulated conflicts, and the number of `_find_time_slot` calls made so
far (used to index the day-shuffle oracle). -/
structure GenState where
  timetable : List Booking
  entries_created : Nat
  conflicts : List ConflictInfo
  slotCalls : Nat
deriving DecidableEq, Repr

/-- Oracle for the nondeterminism of a run: the course shuffle performed by
`random.shuffle`, the day order of the k-th `_find_time_slot` call, and the
elapsed `time.time() - start_time` reading at the k-th per-course budget
check. -/
structure Oracle where
  shuffleCourses : List Course → List Course
  dayOrder : Nat → List String
  clock : Nat → ℚ

/-- A conflict record carrying the attempted time slot. -/
def mkConflict (kind : String) (course : Course) (slot : TimeSlot) : ConflictInfo :=
  ⟨kind, course.id, slot⟩

/-- A conflict record with the empty time slot, as recorded by
`_optimize_timetable` when no slot was ever reached. -/
def emptyConflict (kind : String) (course : Course) : ConflictInfo :=
  ⟨kind, course.id, ⟨"", 0, 0⟩⟩

/-- `_create_timetable_entry`: evaluate the constraints; if some violated kind
is registered as hard, record one conflict naming the first such kind and
create nothing; otherwise append the new booking to the ledger and bump the
counter. -/
def create_timetable_entry (cfg : GenConfig) (st : GenState) (course : Course)
    (instructor : Instructor) (room : Room) (slot : TimeSlot) :
    Option Booking × GenState :=
  let violated := check_constraints st.timetable cfg.semester_id course instructor
    room slot
  match violated.find? (fun k => is_hard_block cfg.constraintsDb k) with
  | some k =>
    (none, { st with conflicts := st.conflicts ++ [mkConflict k course slot] })
  | none =>
    let entry : Booking := ⟨course.id, instructor.id, room.id, slot.day,
      slot.start_time, slot.end_time, cfg.semester_id⟩
    (some entry,
      { st with
          timetable := st.timetable ++ [entry]
          entries_created := st.entries_created + 1 })

/-- The inner room loop of `_optimize_timetable` for one instructor: try each
room in order; on a found slot attempt the commit; stop at the first success.
The Boolean result is the `scheduled` flag. -/
def tryRooms (cfg : GenConfig) (orc : Oracle) (course : Course)
    (instructor : Instructor) : List Room → GenState → GenState × Bool
  | [], st => (st, false)
  | room :: rest, st =>
    match find_time_slot cfg.availabilities st.timetable cfg.semester_id course
        instructor room (orc.dayOrder st.slotCalls) with
    | none =>
      tryRooms cfg orc course instructor rest { st with slotCalls := st.slotCalls + 1 }
    | some slot =>
      match create_timetable_entry cfg { st with slotCalls := st.slotCalls + 1 }
          course instructor room slot with
      | (some _, st2) => (st2, true)
      | (none, st2) => tryRooms cfg orc course instructor rest st2

/-- The outer instructor loop of `_optimize_timetable` for one course. -/
def tryInstructors (cfg : GenConfig) (orc : Oracle) (course : Course) :
    List (Instructor × Nat) → List Room → GenState → GenState × Bool
  | [], _, st => (st, false)
  | iw :: rest, rooms, st =>
    match tryRooms cfg orc course iw.1 rooms st with
    | (st1, true) => (st1, true)
    | (st1, false) => tryInstructors cfg orc course rest rooms st1

/-- The body of the per-course loop of `_optimize_timetable`: skip the course
when respecting an existing booking, otherwise search rooms, instructors and
slots, committing on success and recording a conflict on failure. -/
def scheduleCourse (cfg : GenConfig) (orc : Oracle) (st : GenState)
    (course : Course) : GenState :=
  if cfg.respect_existing && !cfg.clear_existing
      && st.timetable.any (fun b =>
          b.course_id == course.id && b.semester_id == cfg.semester_id) then
    st
  else if (get_suitable_rooms cfg.rooms course).isEmpty then
    { st with conflicts := st.conflicts ++ [emptyConflict "NoSuitableRoom" course] }
  else if (get_suitable_instructors cfg course).isEmpty then
    { st with conflicts :=
        st.conflicts ++ [emptyConflict "NoSuitableInstructor" course] }
  else
    match tryInstructors cfg orc course (get_suitable_instructors cfg course)
        (get_suitable_rooms cfg.rooms course) st with
    | (st1, true) => st1
    | (st1, false) =>
      { st1 with conflicts :=
          st1.conflicts ++ [emptyConflict "NoSuitableTimeSlot" course] }

/-- The per-course loop of `_optimize_timetable`: before each course the
elapsed clock is compared with the time limit and the iteration counter with
`max_iterations`; on either budget being exceeded the loop breaks, leaving the
remaining courses untouched. -/
def optLoop (cfg : GenConfig) (orc : Oracle) :
    List Course → Nat → GenState → GenState
  | [], _, st => st
  | course :: rest, iter, st =>
    if orc.clock iter > (cfg.time_limit_seconds : ℚ) ∨ cfg.max_iterations ≤ iter then
      st
    else optLoop cfg orc rest (iter + 1) (scheduleCourse cfg orc st course)

/-- Course ordering by strategy: `rooms` puts Lab courses first (stable),
`students` sorts by descending expected enrollment (stable, unset treated as
0), `instructors` leaves the input order unchanged (the source branch is
`pass`), and every other strategy shuffles. -/
def orderCourses (strategy : OptimizationStrategyEnum)
    (shuffle : List Course → List Course) (courses : List Course) : List Course :=
  match strategy with
  | .rooms =>
    pySorted (fun a b =>
        decide ((if b.type == "Lab" then 1 else 0) < (if a.type == "Lab" then (1:Nat) else 0)))
      courses
  | .instructors => courses
  | .students =>
    pySorted (fun a b => decide (b.expected_students.getD 0 < a.expected_students.getD 0))
      courses
  | _ => shuffle courses

/-- The bulk delete performed when `clear_existing` is set: drop every ledger
row of the semester. -/
def clearSem (sem : Nat) (tt : List Booking) : List Booking :=
  tt.filter fun b => b.semester_id != sem

/-- `_optimize_timetable`: optional clear, course ordering, then the bounded
per-course loop starting at iteration 0. -/
def optimize_timetable (cfg : GenConfig) (orc : Oracle) (st0 : GenState) :
    GenState :=
  let st := if cfg.clear_existing then
      { st0 with timetable := clearSem cfg.semester_id st0.timetable }
    else st0
  optLoop cfg orc (orderCourses cfg.strategy orc.shuffleCourses cfg.courses) 0 st

/-- A fresh generator state over a given ledger: counters and conflict list
start at zero, as in `TimetableGenerator.__init__`. -/
def freshState (tt : List Booking) : GenState := ⟨tt, 0, [], 0⟩

/-- The `timetable_generation_job` record (fields the generator writes). -/
structure Job where
  semester_id : Nat
  optimization_strategy : OptimizationStrategyEnum
  status : String
  error_message : Option String
deriving DecidableEq, Repr

/-- `_create_job`: the job row inserted by the generator constructor.  Its
status is the literal string `"Running"`. -/
def create_job (semester_id : Nat) (strategy : OptimizationStrategyEnum) : Job :=
  ⟨semester_id, strategy, "Running", none⟩

/-- Observable outcome of `generate()`: the final job row, the ledger, the
result counters, and the exception re-raised to the caller (if any). -/
structure RunResult where
  job : Job
  ledger : List Booking
  entries_created : Nat
  conflicts : List ConflictInfo
  raised : Option String
deriving Repr

/-- `generate()`: run the optimization inside try/except.  An unrecoverable
error from the storage layer is modelled by `interruption`: the captured
message together with the generator state at the moment of the raise.  On the
error path the job is marked Failed with that message, the ledger of the
partial state is left as is (no rollback), and the error is re-raised; on the
normal path the job is marked Completed. -/
def generate (cfg : GenConfig) (orc : Oracle) (st0 : GenState)
    (interruption : Option (String × GenState)) : RunResult :=
  let job := create_job cfg.semester_id cfg.strategy
  match interruption with
  | none =>
    let st := optimize_timetable cfg orc st0
    ⟨{ job with status := "Completed" }, st.timetable, st.entries_created,
      st.conflicts, none⟩
  | some p =>
    ⟨{ job with status := "Failed", error_message := some p.1 }, p.2.timetable,
      p.2.entries_created, p.2.conflicts, some p.1⟩

/-- The successive values taken by the `status` column of the job row created
by a run: the value at creation followed by the terminal value written by
`generate()`. -/
def jobStatusTrace (cfg : GenConfig) (orc : Oracle) (st0 : GenState)
    (interruption : Option (String × GenState)) : List String :=
  [(create_job cfg.semester_id cfg.strategy).status,
   (generate cfg orc st0 interruption).job.status]

/-! ### Specification-side description of the Slot Finder

The following definitions follow the words of the specification of
`findSlot` (candidate windows of the fixed duration at 30-minute steps inside
the availability windows clipped to the default teaching window of the day;
feasible when overlapping no instructor booking and no room booking of the
day; the first feasible candidate in scan order is returned).  They are
compared with `find_time_slot`, which embeds the source. -/

/-- All candidate windows of the given duration at `step`-minute starts inside
`[a, b]`, with no booking filter. -/
def rawSlots (duration a b step : Nat) : List (Nat × Nat) :=
  (slotStarts a b duration step).map fun s => (s, s + duration)

/-- Spec-side candidate enumeration for one day: fixed-duration windows at
30-minute steps inside the availability windows of the instructor clipped to
the default teaching window of the day. -/
def specCandidates (avs : List InstructorAvailability) (duration instructor_id : Nat)
    (day : String) : List (Nat × Nat) :=
  match DEFAULT_TEACHING_HOURS.find? (fun p => p.1 == day) with
  | none => []
  | some p =>
    (get_instructor_availability avs instructor_id day).flatMap fun w =>
      rawSlots duration (max w.1 p.2.1) (min w.2 p.2.2) 30

/-- Spec-side feasibility of a candidate window: it overlaps no existing
booking of the instructor and no existing booking of the room on that day. -/
def specFree (tt : List Booking) (sem instructor_id room_id : Nat) (day : String)
    (q : Nat × Nat) : Bool :=
  ((get_instructor_bookings tt sem instructor_id day).all fun p =>
      !check_time_overlap q.1 q.2 p.1 p.2)
    && ((get_room_bookings tt sem room_id day).all fun p =>
      !check_time_overlap q.1 q.2 p.1 p.2)

/-- Spec-side first-fit search: scanning the days in the given order, return
the first feasible candidate window. -/
def specFirstFit (avs : List InstructorAvailability) (tt : List Booking)
    (sem duration instructor_id room_id : Nat) (dayOrder : List String) :
    Option TimeSlot :=
  dayOrder.findSome? fun day =>
    ((specCandidates avs duration instructor_id day).find?
        (specFree tt sem instructor_id room_id day)).map
      fun q => (⟨day, q.1, q.2⟩ : TimeSlot)

/-! ### Invariants and proof infrastructure -/

/-- Two ledger rows do not clash: if both belong to the semester, share the
day, and share the room or the instructor, their half-open intervals do not
overlap. -/
def NoClash (sem : Nat) (b1 b2 : Booking) : Prop :=
  b1.semester_id = sem → b2.semester_id = sem → b1.day = b2.day →
    (b1.room_id = b2.room_id ∨ b1.instructor_id = b2.instructor_id) →
    check_time_overlap b1.start_time b1.end_time b2.start_time b2.end_time = false

/-- The double-booking invariant over the ledger, restricted to one
semester. -/
def LedgerSound (sem : Nat) (tt : List Booking) : Prop :=
  tt.Pairwise (NoClash sem)

/-- An entry the scheduler can commit at ledger `tt`: built from a slot that
`_find_time_slot` returned against `tt` for some instructor of the pool, and
accepted by the hard-constraint gate of `_create_timetable_entry`. -/
def GoodEntry (cfg : GenConfig) (tt : List Booking) (entry : Booking) : Prop :=
  ∃ course instructor room slot dayOrder,
    instructor ∈ cfg.instructorsPool ∧
    find_time_slot cfg.availabilities tt cfg.semester_id course instructor room
      dayOrder = some slot ∧
    (check_constraints tt cfg.semester_id course instructor room slot).find?
      (fun k => is_hard_block cfg.constraintsDb k) = none ∧
    entry = ⟨course.id, instructor.id, room.id, slot.day, slot.start_time,
      slot.end_time, cfg.semester_id⟩

/-- The ledger evolutions the scheduler can produce: a sequence of good-entry
appends. -/
inductive Reaches (cfg : GenConfig) : List Booking → List Booking → Prop
  | refl (tt) : Reaches cfg tt tt
  | step {tt tt' e} : Reaches cfg tt tt' → GoodEntry cfg tt' e →
      Reaches cfg tt (tt' ++ [e])

/-- `tt` grew into `tt'` by appending rows with nonnegative duration. -/
def GrowsBy (tt tt' : List Booking) : Prop :=
  ∃ ex, tt' = tt ++ ex ∧ ∀ b ∈ ex, b.start_time ≤ b.end_time

/-- The existing-booking test of the per-course loop. -/
def hasBookingFor (tt : List Booking) (sem course_id : Nat) : Bool :=
  tt.any fun b => b.course_id == course_id && b.semester_id == sem

/-- A (course, instructor, room) pair is blocked by a hard violation that does
not depend on the particular slot: a room-type or room-capacity mismatch, or
the instructor hour budget being exceeded at ledger `tt`. -/
def hardStaticBlock (cfg : GenConfig) (tt : List Booking) (course : Course)
    (instructor : Instructor) (room : Room) : Prop :=
  (is_hard_block cfg.constraintsDb "RoomTypeMatch" = true
      ∧ roomTypeViol course room = true)
    ∨ (is_hard_block cfg.constraintsDb "RoomCapacity" = true
      ∧ roomCapViol course room = true)
    ∨ (is_hard_block cfg.constraintsDb "InstructorMaxHours" = true
      ∧ hoursViol tt cfg.semester_id course instructor = true)

/-- A (course, instructor, room) pair cannot produce a committed entry at
ledger `tt`: either no slot exists on any day, or every found slot is rejected
by a registered hard constraint. -/
def pairFails (cfg : GenConfig) (tt : List Booking) (course : Course)
    (instructor : Instructor) (room : Room) : Prop :=
  find_time_slot cfg.availabilities tt cfg.semester_id course instructor room
    daysList = none
  ∨ hardStaticBlock cfg tt course instructor room

/-- A course the per-course loop cannot commit anything for at ledger `tt`:
it already holds a booking in scope, or its room/instructor pools are empty,
or every (instructor, room) pair fails. -/
def Settled (cfg : GenConfig) (tt : List Booking) (course : Course) : Prop :=
  hasBookingFor tt cfg.semester_id course.id = true
    ∨ get_suitable_rooms cfg.rooms course = []
    ∨ get_suitable_instructors cfg course = []
    ∨ ∀ instructor ∈ cfg.instructorsPool, ∀ room ∈ get_suitable_rooms cfg.rooms course,
        pairFails cfg tt course instructor room

/-! ### Concrete inputs used by counterexamples and witnesses -/

/-- A 1-semester scope with two Theory courses, one instructor, one lecture
hall, no explicit availability and an empty constraint registry. -/
def cfgBase : GenConfig :=
  ⟨1, .balanced, true, false, 1000, 300,
   [⟨1, "Theory", none, 1⟩, ⟨2, "Theory", none, 1⟩], [⟨7, 20⟩],
   [⟨3, "Lecture Hall", 50⟩], [], [], []⟩

/-- A deterministic oracle: identity shuffle, the canonical day order for
every slot search, and a clock frozen at 0 seconds. -/
def orcId : Oracle := ⟨id, fun _ => daysList, fun _ => 0⟩

/-- Like `orcId` but the clock reads 1 second at every check. -/
def orcTick : Oracle := ⟨id, fun _ => daysList, fun _ => 1⟩

/-- Like `orcId` but the course shuffle reverses the list. -/
def orcRev : Oracle := ⟨List.reverse, fun _ => daysList, fun _ => 0⟩

/-- `cfgBase` with a zero time limit. -/
def cfgTime0 : GenConfig := { cfgBase with time_limit_seconds := 0 }

/-- `cfgBase` with an iteration budget of one course. -/
def cfgIter1 : GenConfig := { cfgBase with max_iterations := 1 }

/-- `cfgBase` with a single course, an instructor whose weekly maximum is 0
hours, and an empty constraint registry. -/
def cfgMax0 : GenConfig :=
  { cfgBase with courses := [⟨1, "Theory", none, 1⟩], instructorsPool := [⟨7, 0⟩] }

/-- `cfgMax0` with `InstructorMaxHours` registered as a hard constraint. -/
def cfgMax0Hard : GenConfig :=
  { cfgMax0 with constraintsDb := [⟨"InstructorMaxHours", true⟩] }

/-! ### Helper lemmas -/

theorem insertStable_perm (lt : α → α → Bool) (x : α) :
    ∀ l : List α, List.Perm (insertStable lt x l) (x :: l)
  | [] => List.Perm.refl _
  | y :: ys => by
    rw [insertStable]
    split
    · exact List.Perm.refl _
    · exact ((insertStable_perm lt x ys).cons y).trans (List.Perm.swap x y ys)

theorem foldl_insertStable_perm (lt : α → α → Bool) :
    ∀ (l acc : List α), List.Perm (l.foldl (fun a x => insertStable lt x a) acc) (acc ++ l)
  | [], acc => by simp
  | x :: xs, acc => by
    rw [List.foldl_cons]
    refine (foldl_insertStable_perm lt xs (insertStable lt x acc)).trans ?_
    refine (List.Perm.append_right xs ((insertStable_perm lt x acc))).trans ?_
    exact List.perm_middle.symm

theorem pySorted_perm (lt : α → α → Bool) (l : List α) : List.Perm (pySorted lt l) l := by
  simpa [pySorted] using foldl_insertStable_perm lt l []

theorem mem_pySorted (lt : α → α → Bool) {l : List α} {a : α} :
    a ∈ pySorted lt l ↔ a ∈ l :=
  (pySorted_perm lt l).mem_iff

theorem check_time_overlap_comm (s1 e1 s2 e2 : Nat) :
    check_time_overlap s1 e1 s2 e2 = check_time_overlap s2 e2 s1 e1 := by
  unfold check_time_overlap
  rw [Nat.max_comm, Nat.min_comm]

theorem mem_gats {d : Nat} {ex : List (Nat × Nat)} {a b st s e : Nat}
    (h : (s, e) ∈ get_available_time_slots d ex a b st) :
    e = s + d ∧ ∀ p ∈ ex, check_time_overlap s e p.1 p.2 = false := by
  unfold get_available_time_slots at h
  rcases List.mem_filterMap.mp h with ⟨x, _, hfx⟩
  split at hfx
  case isTrue hc =>
    simp only [Option.some.injEq, Prod.mk.injEq] at hfx
    obtain ⟨rfl, rfl⟩ := hfx
    refine ⟨rfl, fun p hp => ?_⟩
    have := List.all_eq_true.mp hc p hp
    simpa using this
  case isFalse => exact absurd hfx (by simp)

theorem gats_eq_filter (d : Nat) (ex : List (Nat × Nat)) (a b st : Nat) :
    get_available_time_slots d ex a b st
      = (rawSlots d a b st).filter
          (fun q => ex.all fun p => !check_time_overlap q.1 q.2 p.1 p.2) := by
  unfold get_available_time_slots rawSlots
  induction slotStarts a b d st with
  | nil => rfl
  | cons x xs ih =>
    by_cases hc : ex.all fun p => !check_time_overlap x (x + d) p.1 p.2 <;>
      simp [List.filterMap_cons, List.filter_cons, hc, ih]

theorem find_slot_on_day_some {avs : List InstructorAvailability}
    {tt : List Booking} {sem duration iid rid : Nat} {day : String} {s e : Nat}
    (h : find_slot_on_day avs tt sem duration iid rid day = some (s, e)) :
    e = s + duration
    ∧ (∀ p ∈ get_instructor_bookings tt sem iid day,
        check_time_overlap s e p.1 p.2 = false)
    ∧ (∀ p ∈ get_room_bookings tt sem rid day,
        check_time_overlap s e p.1 p.2 = false) := by
  rw [find_slot_on_day] at h
  cases hf : DEFAULT_TEACHING_HOURS.find? (fun p => p.1 == day) with
  | none => rw [hf] at h; exact absurd h (by simp)
  | some q =>
    rw [hf] at h
    dsimp only at h
    split at h
    · exact absurd h (by simp)
    · have hmem := List.mem_of_find?_eq_some h
      have hpred := List.find?_some h
      rcases List.mem_flatMap.mp hmem with ⟨w, _, hg⟩
      have hga := mem_gats hg
      refine ⟨hga.1, hga.2, fun p hp => ?_⟩
      have := List.all_eq_true.mp hpred p hp
      simpa using this

theorem find_time_slot_some {avs : List InstructorAvailability}
    {tt : List Booking} {sem : Nat} {course : Course} {instructor : Instructor}
    {room : Room} :
    ∀ {o : List String} {slot : TimeSlot},
      find_time_slot avs tt sem course instructor room o = some slot →
      slot.day ∈ o
        ∧ find_slot_on_day avs tt sem (course_duration course) instructor.id
            room.id slot.day = some (slot.start_time, slot.end_time)
  | [], slot, h => by rw [find_time_slot] at h; exact absurd h (by simp)
  | day :: rest, slot, h => by
    rw [find_time_slot] at h
    cases hf : find_slot_on_day avs tt sem (course_duration course) instructor.id
        room.id day with
    | some q =>
      rw [hf] at h
      cases h
      exact ⟨List.mem_cons_self _ _, hf⟩
    | none =>
      rw [hf] at h
      have := find_time_slot_some h
      exact ⟨List.mem_cons_of_mem _ this.1, this.2⟩

theorem find_time_slot_post {avs : List InstructorAvailability}
    {tt : List Booking} {sem : Nat} {course : Course} {instructor : Instructor}
    {room : Room} {o : List String} {slot : TimeSlot}
    (h : find_time_slot avs tt sem course instructor room o = some slot) :
    slot.end_time = slot.start_time + course_duration course
    ∧ (∀ p ∈ get_instructor_bookings tt sem instructor.id slot.day,
        check_time_overlap slot.start_time slot.end_time p.1 p.2 = false)
    ∧ (∀ p ∈ get_room_bookings tt sem room.id slot.day,
        check_time_overlap slot.start_time slot.end_time p.1 p.2 = false) :=
  find_slot_on_day_some (find_time_slot_some h).2

theorem find_time_slot_none_iff (avs : List InstructorAvailability)
    (tt : List Booking) (sem : Nat) (course : Course) (instructor : Instructor)
    (room : Room) :
    ∀ o : List String,
      (find_time_slot avs tt sem course instructor room o = none ↔
        ∀ day ∈ o, find_slot_on_day avs tt sem (course_duration course)
          instructor.id room.id day = none)
  | [] => by simp [find_time_slot]
  | day :: rest => by
    rw [find_time_slot]
    cases hf : find_slot_on_day avs tt sem (course_duration course) instructor.id
        room.id day with
    | some q => simp [hf]
    | none => simp [hf, find_time_slot_none_iff avs tt sem course instructor room rest]

theorem course_duration_pos (course : Course) : 0 < course_duration course := by
  unfold course_duration DEFAULT_LAB_DURATION DEFAULT_LECTURE_DURATION
  split <;> omega

theorem teaching_hours_end_zero :
    ∀ p ∈ DEFAULT_TEACHING_HOURS, p.2.1 = 0 → p.2.2 = 0 := by decide

theorem rawSlots_zero_end {duration a step : Nat} (hdur : 0 < duration) :
    rawSlots duration a 0 step = [] := by
  unfold rawSlots slotStarts pyRangeLen
  have h0 : (((0 : Nat) : Int) - duration + 1 - a).toNat = 0 := by
    apply Int.toNat_of_nonpos
    omega
  rw [h0]
  cases step with
  | zero => rfl
  | succ k =>
    have : (0 + (k + 1) - 1) / (k + 1) = 0 := Nat.div_eq_of_lt (by omega)
    rw [this]
    rfl

theorem find_slot_on_day_eq_spec (avs : List InstructorAvailability)
    (tt : List Booking) (sem : Nat) {duration : Nat} (iid rid : Nat)
    (day : String) (hdur : 0 < duration) :
    find_slot_on_day avs tt sem duration iid rid day
      = (specCandidates avs duration iid day).find? (specFree tt sem iid rid day) := by
  rw [find_slot_on_day, specCandidates]
  cases hf : DEFAULT_TEACHING_HOURS.find? (fun p => p.1 == day) with
  | none => simp
  | some q =>
    dsimp only
    by_cases hz : q.2.1 = 0
    · have hz2 : q.2.2 = 0 := teaching_hours_end_zero q (List.mem_of_find?_eq_some hf) hz
      have hcand : ((get_instructor_availability avs iid day).flatMap fun w =>
          rawSlots duration (max w.1 q.2.1) (min w.2 q.2.2) 30) = [] := by
        rw [List.flatMap_eq_nil_iff]
        intro w _
        rw [hz2, Nat.min_zero]
        exact rawSlots_zero_end hdur
      have hzb : (q.2.1 == 0) = true := by simpa using hz
      rw [hcand]
      simp [hzb]
    · have hzb : (q.2.1 == 0) = false := by simpa using hz
      simp only [hzb, Bool.false_eq_true, if_false]
      have hflat : ((get_instructor_availability avs iid day).flatMap fun w =>
            get_available_time_slots duration (get_instructor_bookings tt sem iid day)
              (max w.1 q.2.1) (min w.2 q.2.2) 30)
          = ((get_instructor_availability avs iid day).flatMap fun w =>
              rawSlots duration (max w.1 q.2.1) (min w.2 q.2.2) 30).filter
            (fun qq => (get_instructor_bookings tt sem iid day).all
              fun p => !check_time_overlap qq.1 qq.2 p.1 p.2) := by
        rw [List.filter_flatMap]
        simp only [gats_eq_filter]
      rw [hflat, List.find?_filter]
      congr 1
      funext a
      simp [specFree, slot_works_for_room]

theorem find_time_slot_eq_specFirstFit (avs : List InstructorAvailability)
    (tt : List Booking) (sem : Nat) (course : Course) (instructor : Instructor)
    (room : Room) :
    ∀ dayOrder : List String,
      find_time_slot avs tt sem course instructor room dayOrder
        = specFirstFit avs tt sem (course_duration course) instructor.id room.id
            dayOrder
  | [] => rfl
  | day :: rest => by
    rw [find_time_slot, specFirstFit, List.findSome?_cons]
    rw [← find_slot_on_day_eq_spec avs tt sem instructor.id room.id day
      (course_duration_pos course)]
    cases hf : find_slot_on_day avs tt sem (course_duration course) instructor.id
        room.id day with
    | some q => rfl
    | none =>
      dsimp only [Option.map_none']
      rw [find_time_slot_eq_specFirstFit avs tt sem course instructor room rest]
      rfl

theorem create_entry_cases (cfg : GenConfig) (st : GenState) (course : Course)
    (instructor : Instructor) (room : Room) (slot : TimeSlot) :
    (∃ k, (check_constraints st.timetable cfg.semester_id course instructor room
          slot).find? (fun k => is_hard_block cfg.constraintsDb k) = some k
      ∧ create_timetable_entry cfg st course instructor room slot
          = (none, { st with conflicts := st.conflicts ++ [mkConflict k course slot] }))
    ∨ ((check_constraints st.timetable cfg.semester_id course instructor room
          slot).find? (fun k => is_hard_block cfg.constraintsDb k) = none
      ∧ create_timetable_entry cfg st course instructor room slot
          = (some ⟨course.id, instructor.id, room.id, slot.day, slot.start_time,
              slot.end_time, cfg.semester_id⟩,
            { st with
                timetable := st.timetable ++ [⟨course.id, instructor.id, room.id,
                  slot.day, slot.start_time, slot.end_time, cfg.semester_id⟩]
                entries_created := st.entries_created + 1 })) := by
  rw [create_timetable_entry]
  cases hfind : (check_constraints st.timetable cfg.semester_id course instructor
      room slot).find? (fun k => is_hard_block cfg.constraintsDb k) with
  | some k => exact Or.inl ⟨k, rfl, rfl⟩
  | none => exact Or.inr ⟨rfl, rfl⟩

theorem reaches_trans {cfg : GenConfig} {a b c : List Booking}
    (h1 : Reaches cfg a b) (h2 : Reaches cfg b c) : Reaches cfg a c := by
  induction h2 with
  | refl => exact h1
  | step _ hg ih => exact Reaches.step ih hg

theorem goodEntry_nonneg {cfg : GenConfig} {tt : List Booking} {e : Booking}
    (h : GoodEntry cfg tt e) : e.start_time ≤ e.end_time := by
  obtain ⟨course, instructor, room, slot, o, _, hslot, _, rfl⟩ := h
  have hpost := (find_time_slot_post hslot).1
  simp only
  omega

theorem reaches_growsBy {cfg : GenConfig} {tt tt' : List Booking}
    (h : Reaches cfg tt tt') : GrowsBy tt tt' := by
  induction h with
  | refl => exact ⟨[], by simp, by simp⟩
  | @step t2 e _ hg ih =>
    obtain ⟨ex, heq, hex⟩ := ih
    refine ⟨ex ++ [e], by rw [heq, List.append_assoc], ?_⟩
    intro b hb
    rcases List.mem_append.mp hb with hb | hb
    · exact hex b hb
    · rw [List.mem_singleton.mp hb]
      exact goodEntry_nonneg hg

theorem tryRooms_reaches (cfg : GenConfig) (orc : Oracle) (course : Course)
    (instructor : Instructor) (hi : instructor ∈ cfg.instructorsPool) :
    ∀ (rooms : List Room) (st : GenState),
      Reaches cfg st.timetable
        (tryRooms cfg orc course instructor rooms st).1.timetable
  | [], st => Reaches.refl _
  | room :: rest, st => by
    rw [tryRooms]
    cases hts : find_time_slot cfg.availabilities st.timetable cfg.semester_id
        course instructor room (orc.dayOrder st.slotCalls) with
    | none =>
      exact tryRooms_reaches cfg orc course instructor hi rest
        { st with slotCalls := st.slotCalls + 1 }
    | some slot =>
      dsimp only
      rcases create_entry_cases cfg { st with slotCalls := st.slotCalls + 1 }
          course instructor room slot with ⟨k, _, heq⟩ | ⟨hfind, heq⟩
      · rw [heq]
        exact tryRooms_reaches cfg orc course instructor hi rest
          { st with
              slotCalls := st.slotCalls + 1
              conflicts := st.conflicts ++ [mkConflict k course slot] }
      · rw [heq]
        exact Reaches.step (Reaches.refl _)
          ⟨course, instructor, room, slot, orc.dayOrder st.slotCalls, hi, hts,
            hfind, rfl⟩

theorem tryInstructors_reaches (cfg : GenConfig) (orc : Oracle) (course : Course) :
    ∀ (iws : List (Instructor × Nat)) (rooms : List Room) (st : GenState),
      (∀ iw ∈ iws, iw.1 ∈ cfg.instructorsPool) →
      Reaches cfg st.timetable
        (tryInstructors cfg orc course iws rooms st).1.timetable
  | [], _, st, _ => Reaches.refl _
  | iw :: rest, rooms, st, hmem => by
    rw [tryInstructors]
    have h1 := tryRooms_reaches cfg orc course iw.1
      (hmem iw (List.mem_cons_self _ _)) rooms st
    cases htr : tryRooms cfg orc course iw.1 rooms st with
    | mk st1 flag =>
      rw [htr] at h1
      cases flag with
      | true => exact h1
      | false =>
        have h2 := tryInstructors_reaches cfg orc course rest rooms st1
          (fun x hx => hmem x (List.mem_cons_of_mem _ hx))
        exact reaches_trans h1 h2

theorem suitable_instructors_mem_pool (cfg : GenConfig) (course : Course) :
    ∀ iw ∈ get_suitable_instructors cfg course, iw.1 ∈ cfg.instructorsPool := by
  intro iw hiw
  rw [get_suitable_instructors, mem_pySorted] at hiw
  rcases List.mem_map.mp hiw with ⟨i, hi, rfl⟩
  exact hi

theorem scheduleCourse_reaches (cfg : GenConfig) (orc : Oracle) (st : GenState)
    (course : Course) :
    Reaches cfg st.timetable (scheduleCourse cfg orc st course).timetable := by
  rw [scheduleCourse]
  split
  · exact Reaches.refl _
  split
  · exact Reaches.refl _
  split
  · exact Reaches.refl _
  · have h1 := tryInstructors_reaches cfg orc course
      (get_suitable_instructors cfg course) (get_suitable_rooms cfg.rooms course)
      st (suitable_instructors_mem_pool cfg course)
    cases htr : tryInstructors cfg orc course (get_suitable_instructors cfg course)
        (get_suitable_rooms cfg.rooms course) st with
    | mk st1 flag =>
      rw [htr] at h1
      cases flag with
      | true => exact h1
      | false => exact h1

theorem optLoop_reaches (cfg : GenConfig) (orc : Oracle) :
    ∀ (courses : List Course) (iter : Nat) (st : GenState),
      Reaches cfg st.timetable (optLoop cfg orc courses iter st).timetable
  | [], _, st => Reaches.refl _
  | course :: rest, iter, st => by
    rw [optLoop]
    split
    · exact Reaches.refl _
    · exact reaches_trans (scheduleCourse_reaches cfg orc st course)
        (optLoop_reaches cfg orc rest (iter + 1) (scheduleCourse cfg orc st course))

theorem mem_room_bookings {tt : List Booking} {sem rid : Nat} {day : String}
    {b : Booking} (hb : b ∈ tt) (hr : b.room_id = rid) (hd : b.day = day)
    (hs : b.semester_id = sem) :
    (b.start_time, b.end_time) ∈ get_room_bookings tt sem rid day := by
  rw [get_room_bookings]
  apply List.mem_map_of_mem
  exact List.mem_filter.mpr ⟨hb, by simp [hr, hd, hs]⟩

theorem mem_instructor_bookings {tt : List Booking} {sem iid : Nat} {day : String}
    {b : Booking} (hb : b ∈ tt) (hi : b.instructor_id = iid) (hd : b.day = day)
    (hs : b.semester_id = sem) :
    (b.start_time, b.end_time) ∈ get_instructor_bookings tt sem iid day := by
  rw [get_instructor_bookings]
  apply List.mem_map_of_mem
  exact List.mem_filter.mpr ⟨hb, by simp [hi, hd, hs]⟩

theorem ledgerSound_step {cfg : GenConfig} {tt : List Booking} {e : Booking}
    (hs : LedgerSound cfg.semester_id tt) (hg : GoodEntry cfg tt e) :
    LedgerSound cfg.semester_id (tt ++ [e]) := by
  obtain ⟨course, instructor, room, slot, o, _, hslot, _, rfl⟩ := hg
  have hpost := find_time_slot_post hslot
  rw [LedgerSound, List.pairwise_append]
  refine ⟨hs, List.pairwise_singleton _ _, ?_⟩
  intro b hb x hx
  rw [List.mem_singleton] at hx
  subst hx
  intro hbsem _ hday hshare
  rcases hshare with hroom | hinstr
  · have hmem := mem_room_bookings hb (by simpa using hroom) (by simpa using hday)
      hbsem
    have hover := hpost.2.2 _ hmem
    rw [check_time_overlap_comm]
    simpa using hover
  · have hmem := mem_instructor_bookings hb (by simpa using hinstr)
      (by simpa using hday) hbsem
    have hover := hpost.2.1 _ hmem
    rw [check_time_overlap_comm]
    simpa using hover

theorem ledgerSound_clear (sem : Nat) (tt : List Booking) :
    LedgerSound sem (clearSem sem tt) := by
  rw [LedgerSound]
  apply List.pairwise_of_forall_mem_list
  intro a ha b _
  rw [clearSem, List.mem_filter] at ha
  intro hasem
  exact absurd hasem (by simpa using ha.2)

theorem ledgerSound_reaches {cfg : GenConfig} {tt tt' : List Booking}
    (h : Reaches cfg tt tt') (hs : LedgerSound cfg.semester_id tt) :
    LedgerSound cfg.semester_id tt' := by
  induction h with
  | refl => exact hs
  | step _ hg ih => exact ledgerSound_step ih hg

theorem instructorMinutes_append (tt ex : List Booking) (sem iid : Nat) :
    instructorMinutes (tt ++ ex) sem iid
      = instructorMinutes tt sem iid + instructorMinutes ex sem iid := by
  rw [instructorMinutes, instructorMinutes, instructorMinutes,
    List.filter_append, List.map_append, List.sum_append]

theorem instructorMinutes_singleton (e : Booking) (sem iid : Nat) :
    instructorMinutes [e] sem iid
      = if e.instructor_id == iid && e.semester_id == sem
        then (e.end_time : Int) - (e.start_time : Int) else 0 := by
  rw [instructorMinutes]
  by_cases h : (e.instructor_id == iid && e.semester_id == sem) = true <;>
    simp [List.filter_cons, h]

theorem instructorMinutes_nonneg {ex : List Booking} (sem iid : Nat)
    (hex : ∀ b ∈ ex, b.start_time ≤ b.end_time) :
    0 ≤ instructorMinutes ex sem iid := by
  rw [instructorMinutes]
  apply List.sum_nonneg
  intro x hx
  rcases List.mem_map.mp hx with ⟨b, hbmem, rfl⟩
  have := hex b (List.mem_of_mem_filter hbmem)
  omega

theorem hours_mono_growsBy {tt tt' : List Booking} (h : GrowsBy tt tt')
    (sem iid : Nat) :
    calculate_instructor_hours tt sem iid
      ≤ calculate_instructor_hours tt' sem iid := by
  obtain ⟨ex, rfl, hex⟩ := h
  rw [calculate_instructor_hours, calculate_instructor_hours,
    instructorMinutes_append]
  apply Int.ediv_le_ediv (by norm_num)
  have := @instructorMinutes_nonneg ex sem iid hex
  omega

theorem course_duration_hours (course : Course) :
    (course_duration course : Int) = duration_hours course * 60 := by
  unfold duration_hours course_duration DEFAULT_LAB_DURATION
    DEFAULT_LECTURE_DURATION
  split <;> decide

theorem instructorMinutes_clear (sem iid : Nat) (tt : List Booking) :
    instructorMinutes (clearSem sem tt) sem iid = 0 := by
  rw [clearSem, instructorMinutes, List.filter_filter]
  have hnil : (tt.filter fun a => (a.instructor_id == iid && a.semester_id == sem)
      && (a.semester_id != sem)) = [] := by
    rw [List.filter_eq_nil_iff]
    intro b _ hb
    simp only [Bool.and_eq_true, bne_iff_ne, beq_iff_eq] at hb
    exact hb.2 hb.1.2
  rw [hnil]
  rfl

theorem hours_le_reaches {cfg : GenConfig} {tt tt' : List Booking}
    {iid maxv : Nat} (h : Reaches cfg tt tt')
    (hHard : is_hard_block cfg.constraintsDb "InstructorMaxHours" = true)
    (hPool : ∀ i ∈ cfg.instructorsPool, i.id = iid → i.max_hours_per_week = maxv)
    (hb : calculate_instructor_hours tt cfg.semester_id iid ≤ (maxv : Int)) :
    calculate_instructor_hours tt' cfg.semester_id iid ≤ (maxv : Int) := by
  induction h with
  | refl => exact hb
  | @step t2 e hr hg ih =>
    obtain ⟨course, instructor, room, slot, o, hipool, hslot, hfind, rfl⟩ := hg
    by_cases hiid : instructor.id = iid
    · have hviol : hoursViol t2 cfg.semester_id course instructor = false := by
        by_contra hv
        have hv : hoursViol t2 cfg.semester_id course instructor = true := by
          simpa using hv
        have hmem : "InstructorMaxHours" ∈ check_constraints t2 cfg.semester_id
            course instructor room slot := by
          rw [check_constraints]
          simp [hv]
        have hnot := List.find?_eq_none.mp hfind _ hmem
        exact hnot (by simpa using hHard)
      have hpost := find_time_slot_post hslot
      have hdur : ((slot.end_time : Int) - (slot.start_time : Int))
          = duration_hours course * 60 := by
        rw [hpost.1]
        push_cast
        rw [course_duration_hours]
        ring
      have hcond : ((⟨course.id, instructor.id, room.id, slot.day,
          slot.start_time, slot.end_time, cfg.semester_id⟩ :
            Booking).instructor_id == iid
          && (⟨course.id, instructor.id, room.id, slot.day, slot.start_time,
            slot.end_time, cfg.semester_id⟩ : Booking).semester_id
              == cfg.semester_id) = true := by
        simp [hiid]
      rw [calculate_instructor_hours, instructorMinutes_append,
        instructorMinutes_singleton, if_pos hcond]
      have hsum : instructorMinutes t2 cfg.semester_id iid
            + ((slot.end_time : Int) - (slot.start_time : Int))
          = instructorMinutes t2 cfg.semester_id iid
            + duration_hours course * 60 := by
        rw [hdur]
      rw [hsum, Int.add_mul_ediv_right _ _ (by norm_num : (60 : Int) ≠ 0)]
      have hineq : calculate_instructor_hours t2 cfg.semester_id instructor.id
          + duration_hours course ≤ (instructor.max_hours_per_week : Int) := by
        rw [hoursViol] at hviol
        simp only [decide_eq_false_iff_not, not_lt] at hviol
        exact hviol
      rw [hPool instructor hipool hiid] at hineq
      rw [hiid] at hineq
      rw [calculate_instructor_hours] at hineq
      omega
    · rw [calculate_instructor_hours, instructorMinutes_append,
        instructorMinutes_singleton]
      have hcond : ((⟨course.id, instructor.id, room.id, slot.day,
          slot.start_time, slot.end_time, cfg.semester_id⟩ :
            Booking).instructor_id == iid
          && (⟨course.id, instructor.id, room.id, slot.day, slot.start_time,
            slot.end_time, cfg.semester_id⟩ : Booking).semester_id
              == cfg.semester_id) = false := by
        simp [hiid]
      rw [hcond]
      simpa [calculate_instructor_hours] using ih

theorem room_bookings_append (tt ex : List Booking) (sem rid : Nat)
    (day : String) :
    get_room_bookings (tt ++ ex) sem rid day
      = get_room_bookings tt sem rid day ++ get_room_bookings ex sem rid day := by
  rw [get_room_bookings, get_room_bookings, get_room_bookings,
    List.filter_append, List.map_append]

theorem instructor_bookings_append (tt ex : List Booking) (sem iid : Nat)
    (day : String) :
    get_instructor_bookings (tt ++ ex) sem iid day
      = get_instructor_bookings tt sem iid day
        ++ get_instructor_bookings ex sem iid day := by
  rw [get_instructor_bookings, get_instructor_bookings, get_instructor_bookings,
    List.filter_append, List.map_append]

theorem specFree_grows {tt ex : List Booking} {sem iid rid : Nat} {day : String}
    {q : Nat × Nat} (h : specFree (tt ++ ex) sem iid rid day q = true) :
    specFree tt sem iid rid day q = true := by
  rw [specFree, Bool.and_eq_true] at h ⊢
  obtain ⟨h1, h2⟩ := h
  rw [List.all_eq_true] at h1 h2
  constructor
  · rw [List.all_eq_true]
    intro p hp
    refine h1 p ?_
    rw [instructor_bookings_append]
    exact List.mem_append.mpr (Or.inl hp)
  · rw [List.all_eq_true]
    intro p hp
    refine h2 p ?_
    rw [room_bookings_append]
    exact List.mem_append.mpr (Or.inl hp)

theorem find_slot_on_day_none_grows {avs : List InstructorAvailability}
    {tt ex : List Booking} {sem duration iid rid : Nat} {day : String}
    (hdur : 0 < duration)
    (h : find_slot_on_day avs tt sem duration iid rid day = none) :
    find_slot_on_day avs (tt ++ ex) sem duration iid rid day = none := by
  rw [find_slot_on_day_eq_spec avs tt sem iid rid day hdur] at h
  rw [find_slot_on_day_eq_spec avs (tt ++ ex) sem iid rid day hdur]
  rw [List.find?_eq_none] at h ⊢
  intro q hq hfree
  exact h q hq (specFree_grows (by simpa using hfree))

theorem find_time_slot_none_grows {avs : List InstructorAvailability}
    {tt ex : List Booking} {sem : Nat} {course : Course}
    {instructor : Instructor} {room : Room} {o : List String}
    (h : find_time_slot avs tt sem course instructor room o = none) :
    find_time_slot avs (tt ++ ex) sem course instructor room o = none := by
  rw [find_time_slot_none_iff] at h ⊢
  intro day hday
  exact find_slot_on_day_none_grows (course_duration_pos course) (h day hday)

theorem find_time_slot_none_order {avs : List InstructorAvailability}
    {tt : List Booking} {sem : Nat} {course : Course} {instructor : Instructor}
    {room : Room} {o o' : List String} (hsub : ∀ d, d ∈ o → d ∈ o')
    (h : find_time_slot avs tt sem course instructor room o' = none) :
    find_time_slot avs tt sem course instructor room o = none := by
  rw [find_time_slot_none_iff] at h ⊢
  exact fun day hd => h day (hsub day hd)

theorem check_constraints_at_found {avs : List InstructorAvailability}
    {tt : List Booking} {sem : Nat} {course : Course} {instructor : Instructor}
    {room : Room} {o : List String} {slot : TimeSlot}
    (hslot : find_time_slot avs tt sem course instructor room o = some slot) :
    check_constraints tt sem course instructor room slot
      = (if roomTypeViol course room then ["RoomTypeMatch"] else [])
        ++ (if roomCapViol course room then ["RoomCapacity"] else [])
        ++ (if hoursViol tt sem course instructor then ["InstructorMaxHours"]
            else []) := by
  have hpost := find_time_slot_post hslot
  rw [check_constraints]
  have h1 : roomConflictViol tt sem room slot = false := by
    rw [roomConflictViol, List.any_eq_false]
    intro p hp
    simp [hpost.2.2 p hp]
  have h2 : instructorConflictViol tt sem instructor slot = false := by
    rw [instructorConflictViol, List.any_eq_false]
    intro p hp
    simp [hpost.2.1 p hp]
  rw [h1, h2]
  simp

theorem reject_hardStaticBlock {cfg : GenConfig} {tt : List Booking}
    {course : Course} {instructor : Instructor} {room : Room} {o : List String}
    {slot : TimeSlot} {k : String}
    (hslot : find_time_slot cfg.availabilities tt cfg.semester_id course
      instructor room o = some slot)
    (hfind : (check_constraints tt cfg.semester_id course instructor room
        slot).find? (fun k => is_hard_block cfg.constraintsDb k) = some k) :
    hardStaticBlock cfg tt course instructor room := by
  have hmem := List.mem_of_find?_eq_some hfind
  have hhard : is_hard_block cfg.constraintsDb k = true := List.find?_some hfind
  rw [check_constraints_at_found hslot] at hmem
  rw [hardStaticBlock]
  rcases List.mem_append.mp hmem with h | h
  · rcases List.mem_append.mp h with h | h
    · by_cases hv : roomTypeViol course room = true
      · rw [if_pos hv, List.mem_singleton] at h
        subst h
        exact Or.inl ⟨hhard, hv⟩
      · rw [if_neg hv] at h
        cases h
    · by_cases hv : roomCapViol course room = true
      · rw [if_pos hv, List.mem_singleton] at h
        subst h
        exact Or.inr (Or.inl ⟨hhard, hv⟩)
      · rw [if_neg hv] at h
        cases h
  · by_cases hv : hoursViol tt cfg.semester_id course instructor = true
    · rw [if_pos hv, List.mem_singleton] at h
      subst h
      exact Or.inr (Or.inr ⟨hhard, hv⟩)
    · rw [if_neg hv] at h
      cases h

theorem hardStaticBlock_rejects {cfg : GenConfig} {tt : List Booking}
    {course : Course} {instructor : Instructor} {room : Room} {o : List String}
    {slot : TimeSlot}
    (hb : hardStaticBlock cfg tt course instructor room)
    (hslot : find_time_slot cfg.availabilities tt cfg.semester_id course
      instructor room o = some slot) :
    ∃ k, (check_constraints tt cfg.semester_id course instructor room
      slot).find? (fun k => is_hard_block cfg.constraintsDb k) = some k := by
  rw [← Option.isSome_iff_exists]
  rw [List.find?_isSome]
  rw [check_constraints_at_found hslot]
  rcases hb with ⟨hh, hv⟩ | ⟨hh, hv⟩ | ⟨hh, hv⟩
  · exact ⟨"RoomTypeMatch", by simp [hv], hh⟩
  · exact ⟨"RoomCapacity", by simp [hv], hh⟩
  · exact ⟨"InstructorMaxHours", by simp [hv], hh⟩

theorem hardStaticBlock_grows {cfg : GenConfig} {tt ex : List Booking}
    {course : Course} {instructor : Instructor} {room : Room}
    (hex : ∀ b ∈ ex, b.start_time ≤ b.end_time)
    (h : hardStaticBlock cfg tt course instructor room) :
    hardStaticBlock cfg (tt ++ ex) course instructor room := by
  rcases h with h | h | ⟨hh, hv⟩
  · exact Or.inl h
  · exact Or.inr (Or.inl h)
  · refine Or.inr (Or.inr ⟨hh, ?_⟩)
    rw [hoursViol] at hv ⊢
    simp only [decide_eq_true_eq] at hv ⊢
    have := @hours_mono_growsBy tt (tt ++ ex) ⟨ex, rfl, hex⟩ cfg.semester_id
      instructor.id
    omega

theorem pairFails_grows {cfg : GenConfig} {tt ex : List Booking}
    {course : Course} {instructor : Instructor} {room : Room}
    (hex : ∀ b ∈ ex, b.start_time ≤ b.end_time)
    (h : pairFails cfg tt course instructor room) :
    pairFails cfg (tt ++ ex) course instructor room := by
  rcases h with h | h
  · exact Or.inl (find_time_slot_none_grows h)
  · exact Or.inr (hardStaticBlock_grows hex h)

theorem settled_grows {cfg : GenConfig} {tt ex : List Booking} {course : Course}
    (hex : ∀ b ∈ ex, b.start_time ≤ b.end_time)
    (h : Settled cfg tt course) : Settled cfg (tt ++ ex) course := by
  rcases h with h | h | h | h
  · left
    rw [hasBookingFor] at h ⊢
    rw [List.any_append, h]
    rfl
  · exact Or.inr (Or.inl h)
  · exact Or.inr (Or.inr (Or.inl h))
  · refine Or.inr (Or.inr (Or.inr ?_))
    intro instructor hi room hr
    exact pairFails_grows hex (h instructor hi room hr)

theorem tryRooms_false_frozen (cfg : GenConfig) (orc : Oracle) (course : Course)
    (instructor : Instructor) :
    ∀ (rooms : List Room) (st : GenState),
      (tryRooms cfg orc course instructor rooms st).2 = false →
      (tryRooms cfg orc course instructor rooms st).1.timetable = st.timetable
      ∧ (tryRooms cfg orc course instructor rooms st).1.entries_created
          = st.entries_created
  | [], st, _ => ⟨rfl, rfl⟩
  | room :: rest, st, hfalse => by
    rw [tryRooms] at hfalse ⊢
    cases hts : find_time_slot cfg.availabilities st.timetable cfg.semester_id
        course instructor room (orc.dayOrder st.slotCalls) with
    | none =>
      rw [hts] at hfalse
      exact tryRooms_false_frozen cfg orc course instructor rest
        { st with slotCalls := st.slotCalls + 1 } hfalse
    | some slot =>
      rw [hts] at hfalse
      dsimp only at hfalse ⊢
      rcases create_entry_cases cfg { st with slotCalls := st.slotCalls + 1 }
          course instructor room slot with ⟨k, _, hceq⟩ | ⟨_, hceq⟩
      · rw [hceq] at hfalse ⊢
        exact tryRooms_false_frozen cfg orc course instructor rest
          { st with
              slotCalls := st.slotCalls + 1
              conflicts := st.conflicts ++ [mkConflict k course slot] } hfalse
      · rw [hceq] at hfalse
        exact absurd hfalse (by simp)

theorem tryRooms_false_pairFails (cfg : GenConfig) (orc : Oracle)
    (course : Course) (instructor : Instructor)
    (hd : ∀ k, List.Perm (orc.dayOrder k) daysList) :
    ∀ (rooms : List Room) (st : GenState),
      (tryRooms cfg orc course instructor rooms st).2 = false →
      ∀ room ∈ rooms, pairFails cfg st.timetable course instructor room
  | [], st, _ => by intro room h; cases h
  | room :: rest, st, hfalse => by
    rw [tryRooms] at hfalse
    intro r hr
    cases hts : find_time_slot cfg.availabilities st.timetable cfg.semester_id
        course instructor room (orc.dayOrder st.slotCalls) with
    | none =>
      rw [hts] at hfalse
      rcases List.mem_cons.mp hr with rfl | hmem
      · exact Or.inl (find_time_slot_none_order
          (fun d hd2 => ((hd st.slotCalls).mem_iff).mpr hd2) hts)
      · exact tryRooms_false_pairFails cfg orc course instructor hd rest
          { st with slotCalls := st.slotCalls + 1 } hfalse r hmem
    | some slot =>
      rw [hts] at hfalse
      dsimp only at hfalse
      rcases create_entry_cases cfg { st with slotCalls := st.slotCalls + 1 }
          course instructor room slot with ⟨k, hfind, hceq⟩ | ⟨_, hceq⟩
      · rw [hceq] at hfalse
        rcases List.mem_cons.mp hr with rfl | hmem
        · exact Or.inr (reject_hardStaticBlock hts hfind)
        · exact tryRooms_false_pairFails cfg orc course instructor hd rest
            { st with
                slotCalls := st.slotCalls + 1
                conflicts := st.conflicts ++ [mkConflict k course slot] }
            hfalse r hmem
      · rw [hceq] at hfalse
        exact absurd hfalse (by simp)

theorem tryRooms_true (cfg : GenConfig) (orc : Oracle) (course : Course)
    (instructor : Instructor) :
    ∀ (rooms : List Room) (st : GenState),
      (tryRooms cfg orc course instructor rooms st).2 = true →
      ∃ e : Booking, (tryRooms cfg orc course instructor rooms st).1.timetable
          = st.timetable ++ [e]
        ∧ e.course_id = course.id ∧ e.semester_id = cfg.semester_id
  | [], st, htrue => by exact absurd htrue (by simp [tryRooms])
  | room :: rest, st, htrue => by
    rw [tryRooms] at htrue ⊢
    cases hts : find_time_slot cfg.availabilities st.timetable cfg.semester_id
        course instructor room (orc.dayOrder st.slotCalls) with
    | none =>
      rw [hts] at htrue
      exact tryRooms_true cfg orc course instructor rest
        { st with slotCalls := st.slotCalls + 1 } htrue
    | some slot =>
      rw [hts] at htrue
      dsimp only at htrue ⊢
      rcases create_entry_cases cfg { st with slotCalls := st.slotCalls + 1 }
          course instructor room slot with ⟨k, _, hceq⟩ | ⟨_, hceq⟩
      · rw [hceq] at htrue ⊢
        exact tryRooms_true cfg orc course instructor rest
          { st with
              slotCalls := st.slotCalls + 1
              conflicts := st.conflicts ++ [mkConflict k course slot] } htrue
      · rw [hceq]
        exact ⟨⟨course.id, instructor.id, room.id, slot.day, slot.start_time,
          slot.end_time, cfg.semester_id⟩, rfl, rfl, rfl⟩

theorem tryRooms_frozen (cfg : GenConfig) (orc : Oracle) (course : Course)
    (instructor : Instructor)
    (hd : ∀ k, List.Perm (orc.dayOrder k) daysList) :
    ∀ (rooms : List Room) (st : GenState),
      (∀ room ∈ rooms, pairFails cfg st.timetable course instructor room) →
      (tryRooms cfg orc course instructor rooms st).2 = false
  | [], st, _ => rfl
  | room :: rest, st, hfails => by
    rw [tryRooms]
    have hrest : ∀ r ∈ rest, pairFails cfg st.timetable course instructor r :=
      fun r hr => hfails r (List.mem_cons_of_mem _ hr)
    cases hts : find_time_slot cfg.availabilities st.timetable cfg.semester_id
        course instructor room (orc.dayOrder st.slotCalls) with
    | none =>
      exact tryRooms_frozen cfg orc course instructor hd rest
        { st with slotCalls := st.slotCalls + 1 } hrest
    | some slot =>
      have hblock : hardStaticBlock cfg st.timetable course instructor room := by
        rcases hfails room (List.mem_cons_self _ _) with hnone | hblock
        · exact absurd hts (by
            rw [find_time_slot_none_order
              (fun d hd2 => ((hd st.slotCalls).mem_iff).mp hd2) hnone]
            simp)
        · exact hblock
      obtain ⟨k, hfindk⟩ := hardStaticBlock_rejects hblock hts
      dsimp only
      rcases create_entry_cases cfg { st with slotCalls := st.slotCalls + 1 }
          course instructor room slot with ⟨k2, _, hceq⟩ | ⟨hfindnone, _⟩
      · rw [hceq]
        exact tryRooms_frozen cfg orc course instructor hd rest
          { st with
              slotCalls := st.slotCalls + 1
              conflicts := st.conflicts ++ [mkConflict k2 course slot] } hrest
      · rw [hfindnone] at hfindk
        exact absurd hfindk (by simp)

theorem tryInstructors_false_frozen (cfg : GenConfig) (orc : Oracle)
    (course : Course) :
    ∀ (iws : List (Instructor × Nat)) (rooms : List Room) (st : GenState),
      (tryInstructors cfg orc course iws rooms st).2 = false →
      (tryInstructors cfg orc course iws rooms st).1.timetable = st.timetable
      ∧ (tryInstructors cfg orc course iws rooms st).1.entries_created
          = st.entries_created
  | [], _, st, _ => ⟨rfl, rfl⟩
  | iw :: rest, rooms, st, hfalse => by
    rw [tryInstructors] at hfalse ⊢
    cases htr : tryRooms cfg orc course iw.1 rooms st with
    | mk st1 flag =>
      rw [htr] at hfalse
      cases flag with
      | true => exact absurd hfalse (by simp)
      | false =>
        have h1 := tryRooms_false_frozen cfg orc course iw.1 rooms st
          (by rw [htr])
        rw [htr] at h1
        have h2 := tryInstructors_false_frozen cfg orc course rest rooms st1
          hfalse
        exact ⟨h2.1.trans h1.1, h2.2.trans h1.2⟩

theorem tryInstructors_false_pairFails (cfg : GenConfig) (orc : Oracle)
    (course : Course) (hd : ∀ k, List.Perm (orc.dayOrder k) daysList) :
    ∀ (iws : List (Instructor × Nat)) (rooms : List Room) (st : GenState),
      (tryInstructors cfg orc course iws rooms st).2 = false →
      ∀ iw ∈ iws, ∀ room ∈ rooms, pairFails cfg st.timetable course iw.1 room
  | [], _, st, _ => by intro iw h; cases h
  | iw :: rest, rooms, st, hfalse => by
    rw [tryInstructors] at hfalse
    intro jw hjw r hr
    cases htr : tryRooms cfg orc course iw.1 rooms st with
    | mk st1 flag =>
      rw [htr] at hfalse
      cases flag with
      | true => exact absurd hfalse (by simp)
      | false =>
        have h1 := tryRooms_false_frozen cfg orc course iw.1 rooms st
          (by rw [htr])
        rw [htr] at h1
        rcases List.mem_cons.mp hjw with rfl | hmem
        · exact tryRooms_false_pairFails cfg orc course jw.1 hd rooms st
            (by rw [htr]) r hr
        · have := tryInstructors_false_pairFails cfg orc course hd rest rooms
            st1 hfalse jw hmem r hr
          rw [h1.1] at this
          exact this

theorem tryInstructors_true (cfg : GenConfig) (orc : Oracle) (course : Course) :
    ∀ (iws : List (Instructor × Nat)) (rooms : List Room) (st : GenState),
      (tryInstructors cfg orc course iws rooms st).2 = true →
      ∃ e : Booking,
        (tryInstructors cfg orc course iws rooms st).1.timetable
          = st.timetable ++ [e]
        ∧ e.course_id = course.id ∧ e.semester_id = cfg.semester_id
  | [], _, st, htrue => by exact absurd htrue (by simp [tryInstructors])
  | iw :: rest, rooms, st, htrue => by
    rw [tryInstructors] at htrue ⊢
    cases htr : tryRooms cfg orc course iw.1 rooms st with
    | mk st1 flag =>
      rw [htr] at htrue
      cases flag with
      | true =>
        have := tryRooms_true cfg orc course iw.1 rooms st (by rw [htr])
        rw [htr] at this
        exact this
      | false =>
        have h1 := tryRooms_false_frozen cfg orc course iw.1 rooms st
          (by rw [htr])
        rw [htr] at h1
        obtain ⟨e, he, hce, hse⟩ := tryInstructors_true cfg orc course rest
          rooms st1 htrue
        exact ⟨e, by rw [he, h1.1], hce, hse⟩

theorem tryInstructors_frozen (cfg : GenConfig) (orc : Oracle) (course : Course)
    (hd : ∀ k, List.Perm (orc.dayOrder k) daysList) :
    ∀ (iws : List (Instructor × Nat)) (rooms : List Room) (st : GenState),
      (∀ iw ∈ iws, ∀ room ∈ rooms, pairFails cfg st.timetable course iw.1 room) →
      (tryInstructors cfg orc course iws rooms st).2 = false
  | [], _, st, _ => rfl
  | iw :: rest, rooms, st, hfails => by
    rw [tryInstructors]
    have hfr := tryRooms_frozen cfg orc course iw.1 hd rooms st
      (hfails iw (List.mem_cons_self _ _))
    cases htr : tryRooms cfg orc course iw.1 rooms st with
    | mk st1 flag =>
      rw [htr] at hfr
      cases flag with
      | true => exact absurd hfr (by simp)
      | false =>
        have h1 := tryRooms_false_frozen cfg orc course iw.1 rooms st
          (by rw [htr])
        rw [htr] at h1
        refine tryInstructors_frozen cfg orc course hd rest rooms st1 ?_
        intro jw hjw r hr
        rw [h1.1]
        exact hfails jw (List.mem_cons_of_mem _ hjw) r hr

theorem mem_suitable_instructors {cfg : GenConfig} {course : Course}
    {instructor : Instructor} (hi : instructor ∈ cfg.instructorsPool) :
    (instructor, get_preference cfg.preferences instructor.id course.id)
      ∈ get_suitable_instructors cfg course := by
  rw [get_suitable_instructors, mem_pySorted]
  exact List.mem_map_of_mem _ hi

theorem scheduleCourse_settles (cfg : GenConfig) (orc : Oracle) (st : GenState)
    (course : Course) (hd : ∀ k, List.Perm (orc.dayOrder k) daysList)
    (hre : cfg.respect_existing = true) (hcl : cfg.clear_existing = false) :
    Settled cfg (scheduleCourse cfg orc st course).timetable course := by
  rw [scheduleCourse]
  by_cases hskip : (cfg.respect_existing && !cfg.clear_existing
      && st.timetable.any (fun b =>
        b.course_id == course.id && b.semester_id == cfg.semester_id)) = true
  · rw [if_pos hskip]
    left
    rw [hre, hcl] at hskip
    rw [hasBookingFor]
    simpa using hskip
  · rw [if_neg hskip]
    by_cases hrooms : (get_suitable_rooms cfg.rooms course).isEmpty = true
    · rw [if_pos hrooms]
      exact Or.inr (Or.inl (List.isEmpty_iff.mp hrooms))
    · rw [if_neg hrooms]
      by_cases hiws : (get_suitable_instructors cfg course).isEmpty = true
      · rw [if_pos hiws]
        exact Or.inr (Or.inr (Or.inl (List.isEmpty_iff.mp hiws)))
      · rw [if_neg hiws]
        cases htr : tryInstructors cfg orc course
            (get_suitable_instructors cfg course)
            (get_suitable_rooms cfg.rooms course) st with
        | mk st1 flag =>
          cases flag with
          | true =>
            obtain ⟨e, he, hce, hse⟩ := tryInstructors_true cfg orc course
              (get_suitable_instructors cfg course)
              (get_suitable_rooms cfg.rooms course) st (by rw [htr])
            rw [htr] at he
            dsimp only
            left
            rw [hasBookingFor, he, List.any_append]
            have : (List.any [e] fun b =>
                b.course_id == course.id && b.semester_id == cfg.semester_id)
                  = true := by
              simp [hce, hse]
            rw [this, Bool.or_true]
          | false =>
            have h1 := tryInstructors_false_frozen cfg orc course
              (get_suitable_instructors cfg course)
              (get_suitable_rooms cfg.rooms course) st (by rw [htr])
            rw [htr] at h1
            have h2 := tryInstructors_false_pairFails cfg orc course hd
              (get_suitable_instructors cfg course)
              (get_suitable_rooms cfg.rooms course) st (by rw [htr])
            dsimp only
            rw [h1.1]
            refine Or.inr (Or.inr (Or.inr ?_))
            intro instructor hi room hr
            exact h2 (instructor,
              get_preference cfg.preferences instructor.id course.id)
              (mem_suitable_instructors hi) room hr

theorem scheduleCourse_frozen (cfg : GenConfig) (orc : Oracle) (st : GenState)
    (course : Course) (hd : ∀ k, List.Perm (orc.dayOrder k) daysList)
    (hre : cfg.respect_existing = true) (hcl : cfg.clear_existing = false)
    (hset : Settled cfg st.timetable course) :
    (scheduleCourse cfg orc st course).timetable = st.timetable
    ∧ (scheduleCourse cfg orc st course).entries_created = st.entries_created := by
  rw [scheduleCourse]
  by_cases hskip : (cfg.respect_existing && !cfg.clear_existing
      && st.timetable.any (fun b =>
        b.course_id == course.id && b.semester_id == cfg.semester_id)) = true
  · rw [if_pos hskip]
    exact ⟨rfl, rfl⟩
  · rw [if_neg hskip]
    by_cases hrooms : (get_suitable_rooms cfg.rooms course).isEmpty = true
    · rw [if_pos hrooms]
      exact ⟨rfl, rfl⟩
    · rw [if_neg hrooms]
      by_cases hiws : (get_suitable_instructors cfg course).isEmpty = true
      · rw [if_pos hiws]
        exact ⟨rfl, rfl⟩
      · rw [if_neg hiws]
        have hfails : ∀ iw ∈ get_suitable_instructors cfg course,
            ∀ room ∈ get_suitable_rooms cfg.rooms course,
            pairFails cfg st.timetable course iw.1 room := by
          rcases hset with hbk | hro | hiw2 | hfails
          · exfalso
            apply hskip
            rw [hre, hcl]
            rw [hasBookingFor] at hbk
            simpa using hbk
          · exact absurd (List.isEmpty_iff.mpr hro) hrooms
          · exact absurd (List.isEmpty_iff.mpr hiw2) hiws
          · intro iw hiw room hr
            exact hfails iw.1 (suitable_instructors_mem_pool cfg course iw hiw)
              room hr
        have hfr := tryInstructors_frozen cfg orc course hd
          (get_suitable_instructors cfg course)
          (get_suitable_rooms cfg.rooms course) st hfails
        cases htr : tryInstructors cfg orc course
            (get_suitable_instructors cfg course)
            (get_suitable_rooms cfg.rooms course) st with
        | mk st1 flag =>
          rw [htr] at hfr
          cases flag with
          | true => exact absurd hfr (by simp)
          | false =>
            have h1 := tryInstructors_false_frozen cfg orc course
              (get_suitable_instructors cfg course)
              (get_suitable_rooms cfg.rooms course) st (by rw [htr])
            rw [htr] at h1
            dsimp only
            exact ⟨h1.1, h1.2⟩

theorem scheduleCourse_growsBy (cfg : GenConfig) (orc : Oracle) (st : GenState)
    (course : Course) :
    GrowsBy st.timetable (scheduleCourse cfg orc st course).timetable :=
  reaches_growsBy (scheduleCourse_reaches cfg orc st course)

theorem optLoop_settles (cfg : GenConfig) (orc : Oracle)
    (hd : ∀ k, List.Perm (orc.dayOrder k) daysList)
    (hre : cfg.respect_existing = true) (hcl : cfg.clear_existing = false)
    (hclk : ∀ k, ¬ (orc.clock k > (cfg.time_limit_seconds : ℚ))) :
    ∀ (courses : List Course) (iter : Nat) (st : GenState) (P : Course → Prop),
      iter + courses.length ≤ cfg.max_iterations →
      (∀ c, P c → Settled cfg st.timetable c) →
      ∀ c, P c ∨ c ∈ courses →
        Settled cfg (optLoop cfg orc courses iter st).timetable c
  | [], iter, st, P, _, hP, c, hc => by
    rcases hc with hc | hc
    · exact hP c hc
    · cases hc
  | course :: rest, iter, st, P, hit, hP, c, hc => by
    rw [optLoop, if_neg (not_or.mpr ⟨hclk iter, by
      rw [List.length_cons] at hit
      omega⟩)]
    refine optLoop_settles cfg orc hd hre hcl hclk rest (iter + 1)
      (scheduleCourse cfg orc st course) (fun x => P x ∨ x = course)
      (by rw [List.length_cons] at hit; omega) ?_ c ?_
    · intro x hx
      rcases hx with hx | rfl
      · obtain ⟨ex, heq, hex⟩ := scheduleCourse_growsBy cfg orc st course
        rw [heq]
        exact settled_grows hex (hP x hx)
      · exact scheduleCourse_settles cfg orc st x hd hre hcl
    · rcases hc with hc | hc
      · exact Or.inl (Or.inl hc)
      · rcases List.mem_cons.mp hc with rfl | hmem
        · exact Or.inl (Or.inr rfl)
        · exact Or.inr hmem

theorem optLoop_frozen (cfg : GenConfig) (orc : Oracle)
    (hd : ∀ k, List.Perm (orc.dayOrder k) daysList)
    (hre : cfg.respect_existing = true) (hcl : cfg.clear_existing = false) :
    ∀ (courses : List Course) (iter : Nat) (st : GenState),
      (∀ c ∈ courses, Settled cfg st.timetable c) →
      (optLoop cfg orc courses iter st).timetable = st.timetable
      ∧ (optLoop cfg orc courses iter st).entries_created = st.entries_created
  | [], _, _, _ => ⟨rfl, rfl⟩
  | course :: rest, iter, st, hset => by
    rw [optLoop]
    split
    · exact ⟨rfl, rfl⟩
    · have hfr := scheduleCourse_frozen cfg orc st course hd hre hcl
        (hset course (List.mem_cons_self _ _))
      have hrec := optLoop_frozen cfg orc hd hre hcl rest (iter + 1)
        (scheduleCourse cfg orc st course)
        (fun c hcm => by
          rw [hfr.1]
          exact hset c (List.mem_cons_of_mem _ hcm))
      exact ⟨hrec.1.trans hfr.1, hrec.2.trans hfr.2⟩

/-! ### Claim theorems -/

/-- C4: `_find_time_slot` is a first-fit search: scanning the days in the
given randomized order, it returns exactly the first candidate window — of
fixed duration (120 minutes for a Lab course, 60 minutes for a Theory course)
at 30-minute steps inside the availability windows of the instructor clipped
to the default teaching window of the day — that overlaps no existing booking
of the instructor and no existing booking of the room on that day, and it
returns `none` exactly when no such feasible candidate exists on any scanned
day. -/
theorem find_time_slot_first_fit (avs : List InstructorAvailability)
    (tt : List Booking) (sem : Nat) (course : Course) (instructor : Instructor)
    (room : Room) (dayOrder : List String) :
    find_time_slot avs tt sem course instructor room dayOrder
      = specFirstFit avs tt sem (course_duration course) instructor.id room.id
          dayOrder
    ∧ (course.type = "Lab" → course_duration course = 120)
    ∧ (course.type = "Theory" → course_duration course = 60)
    ∧ (find_time_slot avs tt sem course instructor room dayOrder = none ↔
        ∀ day ∈ dayOrder,
          ∀ q ∈ specCandidates avs (course_duration course) instructor.id day,
            specFree tt sem instructor.id room.id day q = false) := by
  refine ⟨find_time_slot_eq_specFirstFit avs tt sem course instructor room dayOrder,
    ?_, ?_, ?_⟩
  · intro h
    simp [course_duration, h, DEFAULT_LAB_DURATION]
  · intro h
    simp [course_duration, h, DEFAULT_LECTURE_DURATION]
  · rw [find_time_slot_eq_specFirstFit avs tt sem course instructor room dayOrder]
    rw [specFirstFit, List.findSome?_eq_none_iff]
    constructor
    · intro h day hday q hq
      have := h day hday
      rw [Option.map_eq_none'] at this
      have := List.find?_eq_none.mp this q hq
      simpa using this
    · intro h day hday
      rw [Option.map_eq_none']
      rw [List.find?_eq_none]
      intro q hq
      simp [h day hday q hq]

/-- C1 (amended): the commit step of `_create_timetable_entry` rejects the
candidate assignment exactly when some violated constraint kind is registered
with `is_hard` true; on rejection no entry is created, the ledger is
unchanged, and exactly one conflict record naming such a violated kind is
appended.  A violated kind with no registered definition does not block the
commit. -/
theorem commit_rejected_iff_registered_hard (cfg : GenConfig) (st : GenState)
    (course : Course) (instructor : Instructor) (room : Room) (slot : TimeSlot) :
    ((create_timetable_entry cfg st course instructor room slot).1 = none ↔
      ∃ k ∈ check_constraints st.timetable cfg.semester_id course instructor
          room slot, is_hard_block cfg.constraintsDb k = true)
    ∧ ((create_timetable_entry cfg st course instructor room slot).1 = none →
      ∃ k ∈ check_constraints st.timetable cfg.semester_id course instructor
          room slot, is_hard_block cfg.constraintsDb k = true
        ∧ (create_timetable_entry cfg st course instructor room slot).2.timetable
            = st.timetable
        ∧ (create_timetable_entry cfg st course instructor room slot).2.conflicts
            = st.conflicts ++ [mkConflict k course slot]) := by
  rw [create_timetable_entry]
  dsimp only
  cases hfind : (check_constraints st.timetable cfg.semester_id course instructor
      room slot).find? (fun k => is_hard_block cfg.constraintsDb k) with
  | some k =>
    constructor
    · constructor
      · intro _
        exact ⟨k, List.mem_of_find?_eq_some hfind, List.find?_some hfind⟩
      · intro _
        rfl
    · intro _
      exact ⟨k, List.mem_of_find?_eq_some hfind, List.find?_some hfind, rfl, rfl⟩
  | none =>
    constructor
    · constructor
      · intro h
        exact absurd h (by simp)
      · rintro ⟨k, hk, hhard⟩
        exact absurd hhard (by simpa using List.find?_eq_none.mp hfind k hk)
    · intro h
      exact absurd h (by simp)

/-- C1 counterexample: with an empty constraint registry, a candidate whose
violated-kinds list is exactly `["RoomCapacity"]` — a kind with no registered
`ConstraintDefinition` — is committed rather than rejected, contradicting the
claim that an unregistered violated kind blocks the commit. -/
theorem unregistered_violation_is_committed :
    check_constraints [] 1 ⟨1, "Theory", some 10, 1⟩ ⟨7, 20⟩
        ⟨3, "Lecture Hall", 5⟩ ⟨"Monday", 480, 540⟩ = ["RoomCapacity"]
    ∧ (create_timetable_entry
        ⟨1, .balanced, true, false, 1000, 300, [], [], [], [], [], []⟩
        (freshState []) ⟨1, "Theory", some 10, 1⟩ ⟨7, 20⟩
        ⟨3, "Lecture Hall", 5⟩ ⟨"Monday", 480, 540⟩).1.isSome = true := by
  decide

/-- C5 counterexample: the job row the generator creates starts in status
"Running" (written by `_create_job`), not in "Pending" as claimed. -/
theorem job_not_created_pending :
    (create_job 1 .balanced).status = "Running"
    ∧ ¬ (create_job 1 .balanced).status = "Pending" := by
  decide

/-- C5 (amended): the job row of a run is created directly in status Running
(it is never Pending) and then transitions to exactly one of Completed or
Failed; the two-step status trace is monotonic and never revisits a status. -/
theorem job_status_lifecycle (cfg : GenConfig) (orc : Oracle) (st0 : GenState)
    (intr : Option (String × GenState)) :
    jobStatusTrace cfg orc st0 intr = ["Running", "Completed"]
    ∨ jobStatusTrace cfg orc st0 intr = ["Running", "Failed"] := by
  cases intr with
  | none => exact Or.inl rfl
  | some p => exact Or.inr rfl

/-- C6 counterexample: under the `instructors` strategy the course list is not
shuffled (the source branch is `pass`), so its order differs from the
default/`balanced` strategy, which applies the shuffle — here a reversal. -/
theorem instructors_strategy_not_a_shuffle :
    orderCourses .instructors List.reverse
        [⟨1, "Theory", none, 1⟩, ⟨2, "Theory", none, 1⟩]
      ≠ orderCourses .balanced List.reverse
        [⟨1, "Theory", none, 1⟩, ⟨2, "Theory", none, 1⟩] := by
  decide

/-- C6 (amended): when the run strategy is `instructors`, the course list is
left in its input order — no shuffle and no reordering is applied — before the
per-course scheduling loop begins. -/
theorem instructors_strategy_keeps_input_order
    (shuffle : List Course → List Course) (courses : List Course) :
    orderCourses .instructors shuffle courses = courses := rfl

/-- C9: when the optimization raises an unrecoverable error, `generate()`
marks the job Failed with the captured message, leaves the ledger of the
partial run as it is (no rollback of bookings committed earlier in the run),
and re-raises the error to the caller. -/
theorem failed_run_marks_job_and_keeps_ledger (cfg : GenConfig) (orc : Oracle)
    (st0 : GenState) (msg : String) (stPartial : GenState) :
    (generate cfg orc st0 (some (msg, stPartial))).job.status = "Failed"
    ∧ (generate cfg orc st0 (some (msg, stPartial))).job.error_message = some msg
    ∧ (generate cfg orc st0 (some (msg, stPartial))).raised = some msg
    ∧ (generate cfg orc st0 (some (msg, stPartial))).ledger = stPartial.timetable :=
  ⟨rfl, rfl, rfl, rfl⟩

/-- C10: rows with `is_available = false` are ignored by
`_get_instructor_availability`; when every recorded window of an instructor
for a day is marked unavailable, the per-day fallback fires and the instructor
is treated as available for the full default teaching window of that day. -/
theorem unavailable_rows_fall_back_to_default (avs : List InstructorAvailability)
    (iid : Nat) (day nm : String) (ds de : Nat)
    (hday : DEFAULT_TEACHING_HOURS.find? (fun p => p.1 == day) = some (nm, ds, de))
    (hnz : ¬ (ds = 0 ∧ de = 0))
    (hall : ∀ a ∈ avs, a.instructor_id = iid → a.day = day →
      a.is_available = false) :
    get_instructor_availability avs iid day = [(ds, de)] := by
  rw [get_instructor_availability]
  have hfilter : (avs.filter fun a =>
      a.instructor_id == iid && a.is_available && a.day == day) = [] := by
    rw [List.filter_eq_nil_iff]
    intro a ha hc
    simp only [Bool.and_eq_true, beq_iff_eq] at hc
    obtain ⟨⟨hid, hav⟩, hd⟩ := hc
    rw [hall a ha hid hd] at hav
    exact absurd hav (by simp)
  rw [hfilter]
  have hcond : ((ds != 0 || de != 0) = true) := by
    rcases Decidable.em (ds = 0) with h0 | h0
    · have : de ≠ 0 := fun h2 => hnz ⟨h0, h2⟩
      simp [this]
    · simp [h0]
  simp [hday, hcond]

/-- C10 witness: an instructor whose only Monday row is marked unavailable is
treated as available 08:00-17:00 on Monday. -/
theorem unavailable_rows_fall_back_to_default_witness :
    get_instructor_availability [⟨1, "Monday", 480, 600, false⟩] 1 "Monday"
      = [(480, 1020)] :=
  unavailable_rows_fall_back_to_default _ 1 "Monday" "Monday" 480 1020
    (by decide) (by decide) (by decide)

/-- C7: the time and iteration budget is checked before each course and, once
exceeded, the loop stops with the state unchanged (no further course attempted
and no conflict recorded for the remaining courses); in particular a run with
`time_limit_seconds = 0` (and a clock that has advanced) terminates with zero
entries created and an empty conflict list. -/
theorem budget_precheck_and_zero_time_limit (cfg : GenConfig) (orc : Oracle)
    (st0 : GenState) (hlim : cfg.time_limit_seconds = 0)
    (hclk : 0 < orc.clock 0) (he : st0.entries_created = 0)
    (hc : st0.conflicts = []) :
    (∀ (courses : List Course) (iter : Nat) (st : GenState),
        (orc.clock iter > (cfg.time_limit_seconds : ℚ)
          ∨ cfg.max_iterations ≤ iter) →
        optLoop cfg orc courses iter st = st)
    ∧ (optimize_timetable cfg orc st0).entries_created = 0
    ∧ (optimize_timetable cfg orc st0).conflicts = [] := by
  have hstop : ∀ (courses : List Course) (iter : Nat) (st : GenState),
      (orc.clock iter > (cfg.time_limit_seconds : ℚ)
        ∨ cfg.max_iterations ≤ iter) →
      optLoop cfg orc courses iter st = st := by
    intro courses iter st h
    cases courses with
    | nil => rfl
    | cons c rest => rw [optLoop, if_pos h]
  have hbudget : orc.clock 0 > (cfg.time_limit_seconds : ℚ)
      ∨ cfg.max_iterations ≤ 0 := by
    left
    rw [hlim]
    simpa using hclk
  refine ⟨hstop, ?_, ?_⟩
  · rw [optimize_timetable, hstop _ 0 _ hbudget]
    split <;> simp [he]
  · rw [optimize_timetable, hstop _ 0 _ hbudget]
    split <;> simp [hc]

/-- C3: assuming the ledger satisfies the per-semester no-double-booking
invariant at run start (or `clear_existing` is set), after the run no two
bookings of the scope with the same room and day, and no two with the same
instructor and day, have overlapping [start, end) intervals: every committed
entry overlaps no booking present in the ledger for that room or instructor
on that day at commit time. -/
theorem no_double_booking (cfg : GenConfig) (orc : Oracle) (st0 : GenState)
    (h : LedgerSound cfg.semester_id st0.timetable ∨ cfg.clear_existing = true) :
    LedgerSound cfg.semester_id (optimize_timetable cfg orc st0).timetable := by
  rw [optimize_timetable]
  by_cases hcl : cfg.clear_existing
  · rw [if_pos hcl]
    exact ledgerSound_reaches
      (optLoop_reaches cfg orc
        (orderCourses cfg.strategy orc.shuffleCourses cfg.courses) 0
        { st0 with timetable := clearSem cfg.semester_id st0.timetable })
      (ledgerSound_clear _ _)
  · rw [if_neg hcl]
    rcases h with h | h
    · exact ledgerSound_reaches
        (optLoop_reaches cfg orc
          (orderCourses cfg.strategy orc.shuffleCourses cfg.courses) 0 st0) h
    · exact absurd h hcl

/-- C2 (amended): provided `InstructorMaxHours` is registered as a hard
constraint and the instructor is within budget at run start, the
instructor's booked hours in the scope (total minutes floor-divided by 60,
as the code accounts them) never exceed the configured weekly maximum after
the run: every commit re-checks the budget and a commit that would exceed it
is rejected. -/
theorem instructor_hours_never_exceed (cfg : GenConfig) (orc : Oracle)
    (st0 : GenState) (iid maxv : Nat)
    (hHard : is_hard_block cfg.constraintsDb "InstructorMaxHours" = true)
    (hPool : ∀ i ∈ cfg.instructorsPool, i.id = iid → i.max_hours_per_week = maxv)
    (hInit : calculate_instructor_hours st0.timetable cfg.semester_id iid
      ≤ (maxv : Int)) :
    calculate_instructor_hours (optimize_timetable cfg orc st0).timetable
      cfg.semester_id iid ≤ (maxv : Int) := by
  rw [optimize_timetable]
  by_cases hcl : cfg.clear_existing
  · rw [if_pos hcl]
    refine hours_le_reaches
      (optLoop_reaches cfg orc
        (orderCourses cfg.strategy orc.shuffleCourses cfg.courses) 0
        { st0 with timetable := clearSem cfg.semester_id st0.timetable })
      hHard hPool ?_
    show calculate_instructor_hours (clearSem cfg.semester_id st0.timetable)
      cfg.semester_id iid ≤ (maxv : Int)
    rw [calculate_instructor_hours, instructorMinutes_clear]
    positivity
  · rw [if_neg hcl]
    exact hours_le_reaches
      (optLoop_reaches cfg orc
        (orderCourses cfg.strategy orc.shuffleCourses cfg.courses) 0 st0)
      hHard hPool hInit

/-- C2 witness: with `InstructorMaxHours` registered hard, an instructor with
a zero maximum stays at zero booked hours. -/
theorem instructor_hours_never_exceed_witness :
    is_hard_block cfgMax0Hard.constraintsDb "InstructorMaxHours" = true
    ∧ (∀ i ∈ cfgMax0Hard.instructorsPool, i.id = 7 → i.max_hours_per_week = 0)
    ∧ calculate_instructor_hours (freshState []).timetable
        cfgMax0Hard.semester_id 7 ≤ ((0 : Nat) : Int)
    ∧ calculate_instructor_hours
        (optimize_timetable cfgMax0Hard orcId (freshState [])).timetable
        cfgMax0Hard.semester_id 7 ≤ ((0 : Nat) : Int) :=
  ⟨by decide, by decide, by decide,
    instructor_hours_never_exceed cfgMax0Hard orcId (freshState []) 7 0
      (by decide) (by decide) (by decide)⟩

/-- C2 counterexample: with an empty constraint registry, the run commits a
60-minute booking for an instructor whose weekly maximum is 0 hours, so the
claimed bound (booked hours never exceed the maximum at every commit) fails
as stated. -/
theorem instructor_over_max_without_registration :
    cfgMax0.instructorsPool = [⟨7, 0⟩]
    ∧ cfgMax0.constraintsDb = []
    ∧ calculate_instructor_hours
        (optimize_timetable cfgMax0 orcId (freshState [])).timetable 1 7 = 1 := by
  decide

/-- C8 (amended): with `respect_existing = true` and `clear_existing = false`,
if the first run attempted every course (its time and iteration budget was
never exhausted), then a second run on the otherwise unchanged scope creates
zero entries: every course either holds a booking (and is skipped) or failed
in the first run, and its failure persists because the ledger only grew. -/
theorem second_run_adds_nothing (cfg : GenConfig) (or1 or2 : Oracle)
    (tt0 : List Booking)
    (hre : cfg.respect_existing = true) (hcl : cfg.clear_existing = false)
    (hd1 : ∀ k, List.Perm (or1.dayOrder k) daysList)
    (hd2 : ∀ k, List.Perm (or2.dayOrder k) daysList)
    (hsh1 : List.Perm (orderCourses cfg.strategy or1.shuffleCourses cfg.courses)
      cfg.courses)
    (hsh2 : List.Perm (orderCourses cfg.strategy or2.shuffleCourses cfg.courses)
      cfg.courses)
    (hclk1 : ∀ k, ¬ (or1.clock k > (cfg.time_limit_seconds : ℚ)))
    (hiter : cfg.courses.length ≤ cfg.max_iterations) :
    (optimize_timetable cfg or2 (freshState
      (optimize_timetable cfg or1 (freshState tt0)).timetable)).entries_created
      = 0 := by
  have hnoclear : ∀ st0 : GenState,
      optimize_timetable cfg or2 st0
        = optLoop cfg or2
            (orderCourses cfg.strategy or2.shuffleCourses cfg.courses) 0 st0 := by
    intro st0
    rw [optimize_timetable, if_neg (by simp [hcl])]
  have hnoclear1 : ∀ st0 : GenState,
      optimize_timetable cfg or1 st0
        = optLoop cfg or1
            (orderCourses cfg.strategy or1.shuffleCourses cfg.courses) 0 st0 := by
    intro st0
    rw [optimize_timetable, if_neg (by simp [hcl])]
  have hL : ∀ c ∈ cfg.courses,
      Settled cfg (optimize_timetable cfg or1 (freshState tt0)).timetable c := by
    intro c hc
    rw [hnoclear1]
    refine optLoop_settles cfg or1 hd1 hre hcl hclk1
      (orderCourses cfg.strategy or1.shuffleCourses cfg.courses) 0
      (freshState tt0) (fun _ => False) ?_ (fun _ h => absurd h (by simp)) c
      (Or.inr (hsh1.mem_iff.mpr hc))
    rw [hsh1.length_eq]
    omega
  rw [hnoclear]
  have hfro := optLoop_frozen cfg or2 hd2 hre hcl
    (orderCourses cfg.strategy or2.shuffleCourses cfg.courses) 0
    (freshState (optimize_timetable cfg or1 (freshState tt0)).timetable)
    (fun c hc => hL c (hsh2.mem_iff.mp hc))
  rw [hfro.2]
  rfl

/-- C8 witness: running the base scope twice with deterministic oracles, with
a budget covering both courses, creates zero entries the second time. -/
theorem second_run_adds_nothing_witness :
    cfgBase.respect_existing = true ∧ cfgBase.clear_existing = false
    ∧ cfgBase.courses.length ≤ cfgBase.max_iterations
    ∧ (optimize_timetable cfgBase orcId (freshState
        (optimize_timetable cfgBase orcId (freshState [])).timetable)).entries_created
      = 0 := by
  refine ⟨rfl, rfl, by decide, ?_⟩
  exact second_run_adds_nothing cfgBase orcId orcId [] rfl rfl
    (fun _ => List.Perm.refl _) (fun _ => List.Perm.refl _)
    (List.Perm.refl _) (List.Perm.refl _)
    (fun k => by norm_num [orcId, cfgBase])
    (by decide)

/-- C8 counterexample: with an iteration budget of one course and two courses
in scope, the first run schedules only the course its shuffle put first; a
second run whose shuffle puts the other course first schedules that course,
so the second run creates one entry rather than zero, refuting the claim as
stated (the scope is otherwise unchanged and both runs use
`respect_existing = true, clear_existing = false`). -/
theorem second_run_can_add_entries :
    cfgIter1.respect_existing = true ∧ cfgIter1.clear_existing = false
    ∧ (optimize_timetable cfgIter1 orcRev (freshState
        (optimize_timetable cfgIter1 orcId (freshState [])).timetable)).entries_created
      = 1 := by
  decide

/-- C3 witness: the base scope starting from an empty ledger satisfies the
invariant after the run. -/
theorem no_double_booking_witness :
    (LedgerSound cfgBase.semester_id (freshState []).timetable
      ∨ cfgBase.clear_existing = true)
    ∧ LedgerSound cfgBase.semester_id
        (optimize_timetable cfgBase orcId (freshState [])).timetable := by
  have h : LedgerSound cfgBase.semester_id (freshState []).timetable :=
    List.Pairwise.nil
  exact ⟨Or.inl h, no_double_booking cfgBase orcId (freshState []) (Or.inl h)⟩

/-- C7 witness: with a 0-second limit and a clock reading 1 second, the base
scope produces no entries and no conflicts. -/
theorem budget_precheck_and_zero_time_limit_witness :
    cfgTime0.time_limit_seconds = 0 ∧ (0 : ℚ) < orcTick.clock 0
    ∧ (freshState []).entries_created = 0 ∧ (freshState []).conflicts = []
    ∧ (optimize_timetable cfgTime0 orcTick (freshState [])).entries_created = 0
    ∧ (optimize_timetable cfgTime0 orcTick (freshState [])).conflicts = [] := by
  refine ⟨rfl, by norm_num [orcTick], rfl, rfl, ?_, ?_⟩
  · exact (budget_precheck_and_zero_time_limit cfgTime0 orcTick (freshState [])
      rfl (by norm_num [orcTick]) rfl rfl).2.1
  · exact (budget_precheck_and_zero_time_limit cfgTime0 orcTick (freshState [])
      rfl (by norm_num [orcTick]) rfl rfl).2.2

end UniTT
